import Mathlib

set_option linter.unusedSectionVars false

/-!
# Verification of the editable vector layer (EditableVectorLayer.cpp)

A shallow embedding of the geometry/overlay editing core of
`src/all/native/layers/EditableVectorLayer.cpp`:

* the recursive geometry data model (point / line / polygon-with-rings /
  multi-geometry),
* the overlay handle-point builder `createGeometryOverlayPoints`,
* the flat-index geometry mutators `updateGeometryPoint` and
  `removeGeometryPoint` (which also splice the overlay point list),
* the touch-event state machine `TouchHandlerListener::onTouchEvent`,
* the selection manager `setSelectedVectorElement`, and
* the element identity predicate `IsSameElement`.

Positions (`MapPos`) are modelled by an arbitrary type `α` with decidable
equality; the projection-surface midpoint computation and the whole-shape
translation are external pure collaborators and enter as function
parameters (`m` for midpoints, `tr` for the rigid translation).  C++ `int`
counters (`offset`, `index`, `points`) are modelled by `Int`, with C++
truncated division/remainder rendered as `Int.tdiv`/`Int.tmod`.
`std::vector` insert/erase at an iterator are `List.insertIdx` and
`List.eraseIdx`.  Overlay points carry their position, the virtual-point
flag and an allocation identity `pid` standing for C++ object identity
(fresh allocations receive fresh ids from a running counter); styles and
draw data of overlay points are render-side artefacts and are not part of
the model.  Rendering side effects (`refresh`, `redraw`) are dropped.
-/

/-- Geometry tree (`PointGeometry` / `LineGeometry` / `PolygonGeometry` /
`MultiGeometry`): tagged variant mirroring the dynamic-cast chains of the
source. -/
inductive Geometry (α : Type) where
  | point (pos : α)
  | line (poses : List α)
  | polygon (rings : List (List α))
  | multi (geoms : List (Geometry α))
  deriving Repr

/-- An overlay handle point: its map position, the virtual-midpoint flag,
and an identity tag standing for C++ object identity of the
`std::shared_ptr<Point>`. -/
structure OverlayPoint (α : Type) where
  pos : α
  virtualPoint : Bool
  pid : Nat
  deriving Repr, DecidableEq

variable {α : Type} [DecidableEq α] [Inhabited α]

/-- `bool closedRing = !ring.empty() && ring.front() == ring.back();` -/
def ringClosed (ring : List α) : Bool :=
  !ring.isEmpty && (ring.head? == ring.getLast?)

/-- Per-ring flat slot count used by the mutators:
`points = ring.size() * 2 - (closedRing ? 2 : 0)`. -/
def ringPoints (ring : List α) : Int :=
  2 * (ring.length : Int) - (if ringClosed ring then 2 else 0)

/-!
## Overlay point builder (`createGeometryOverlayPoints`)

The C++ builder appends to a shared `std::vector` and threads a running
`int& index` (the identity slot passed to `createOverlayPoint`); here each
call returns the list it contributes together with the advanced counter,
and the running counter is recorded as the `pid` of each produced point.
The midpoint of two positions, computed in the source through the
projection surface (`calculateTranslateMatrix(pos0, pos1, 0.5f)`), is the
abstract parameter `m`.
-/

/-- Loop body of the line case of `createGeometryOverlayPoints`, after the
first vertex: for each further vertex push the midpoint handle (virtual)
and then the vertex handle (real). -/
def lineTailPoints (m : α → α → α) (prev : α) :
    List α → Nat → List (OverlayPoint α) × Nat
  | [], idx => ([], idx)
  | v :: vs, idx =>
    let (l, idx') := lineTailPoints m v vs (idx + 2)
    (⟨m prev v, true, idx⟩ :: ⟨v, false, idx + 1⟩ :: l, idx')

/-- Line case of `createGeometryOverlayPoints`: `[v0, mid(v0,v1), v1, ...]`. -/
def lineOverlayPoints (m : α → α → α) :
    List α → Nat → List (OverlayPoint α) × Nat
  | [], idx => ([], idx)
  | v :: vs, idx =>
    let (l, idx') := lineTailPoints m v vs (idx + 1)
    (⟨v, false, idx⟩ :: l, idx')

/-- Polygon-ring case of `createGeometryOverlayPoints`: for
`i < ring.size() - (closedRing ? 1 : 0)` push the vertex handle and then
the midpoint handle towards `ring[i + 1 < ring.size() ? i + 1 : 0]`. -/
def ringOverlayPoints (m : α → α → α) (ring : List α) (idx : Nat) :
    List (OverlayPoint α) × Nat :=
  let n := ring.length - (if ringClosed ring then 1 else 0)
  ((List.range n).flatMap fun i =>
    [⟨ring.getD i default, false, idx + 2 * i⟩,
     ⟨m (ring.getD i default)
        (ring.getD (if i + 1 < ring.length then i + 1 else 0) default),
      true, idx + 2 * i + 1⟩],
   idx + 2 * n)

/-- All rings of a polygon, in order, threading the counter. -/
def polyOverlayPoints (m : α → α → α) :
    List (List α) → Nat → List (OverlayPoint α) × Nat
  | [], idx => ([], idx)
  | r :: rs, idx =>
    let (l1, idx1) := ringOverlayPoints m r idx
    let (l2, idx2) := polyOverlayPoints m rs idx1
    (l1 ++ l2, idx2)

mutual
/-- `EditableVectorLayer::createGeometryOverlayPoints` (lines 752-800).
`ok` models the `getMapRenderer()` / `getProjectionSurface()` null checks
at the head of the function (absent renderer contributes no points). -/
def createGeometryOverlayPoints (ok : Bool) (m : α → α → α) :
    Geometry α → Nat → List (OverlayPoint α) × Nat
  | g, idx =>
    if !ok then ([], idx)
    else
      match g with
      | .point p => ([⟨p, false, idx⟩], idx + 1)
      | .line ps => lineOverlayPoints m ps idx
      | .polygon rings => polyOverlayPoints m rings idx
      | .multi gs => multiOverlayPoints ok m gs idx

/-- The multi-geometry loop of `createGeometryOverlayPoints`. -/
def multiOverlayPoints (ok : Bool) (m : α → α → α) :
    List (Geometry α) → Nat → List (OverlayPoint α) × Nat
  | [], idx => ([], idx)
  | g :: gs, idx =>
    let (l1, idx1) := createGeometryOverlayPoints ok m g idx
    let (l2, idx2) := multiOverlayPoints ok m gs idx1
    (l1 ++ l2, idx2)
end

/-!
## Ring scan shared by the two mutators

Both `updateGeometryPoint` and `removeGeometryPoint` walk the rings of a
polygon with `offset += points; points = ring.size() * 2 - (closedRing ?
2 : 0); localIndex = index - offset;` and act on the first ring with
`localIndex < points`, leaving `offset + points` of that ring in the
running counter.  `scanRings` computes the position of that ring, its
local index, and the final value of the counter (which, when no ring
matches, is the offset advanced past every ring).
-/

/-- The per-ring offset scan of the polygon branches.  Returns the index
of the first matching ring together with its `localIndex`, and the final
running offset. -/
def scanRings (index : Int) : List (List α) → Int → Option (Nat × Int) × Int
  | [], offset => (none, offset)
  | ring :: rest, offset =>
    let pts := ringPoints ring
    let li := index - offset
    if li < pts then (some (0, li), offset + pts)
    else
      let (res, o) := scanRings index rest (offset + pts)
      (res.map fun p => (p.1 + 1, p.2), o)

/-- `ring.back() = ring.front();` -/
def setBack (ring : List α) : List α :=
  ring.set (ring.length - 1) (ring.headD default)

mutual
/-- `EditableVectorLayer::updateGeometryPoint` (lines 565-625).  The
`int& offset` in-out parameter and the spliced `_overlayPoints` member are
threaded explicitly; `pid` is the fresh-identity counter for the two
overlay points allocated by `createOverlayPoint(mapPos, ·,
std::numeric_limits<int>::max())` in the odd-local-index branch.  The
polygon ring loop is rendered through `scanRings`. -/
def updateGeometryPoint (mapPos : α) (index : Int) :
    Geometry α → Int → List (OverlayPoint α) → Nat →
    Geometry α × Int × List (OverlayPoint α) × Nat
  | g, offset, ov, pid =>
    if index < offset then (g, offset, ov, pid)
    else
      match g with
      | .point p =>
        (if index - offset < 1 then .point mapPos else .point p,
         offset + 1, ov, pid)
      | .line ps =>
        let points : Int := 2 * (ps.length : Int) - 1
        let li := index - offset
        if li < points then
          if li.tmod 2 == 0 then
            (.line (ps.set (li.tdiv 2).toNat mapPos), offset + points, ov, pid)
          else
            (.line (ps.insertIdx (li.tdiv 2 + 1).toNat mapPos),
             offset + points,
             (ov.insertIdx (index + 1).toNat ⟨mapPos, true, pid⟩).insertIdx
               index.toNat ⟨mapPos, false, pid + 1⟩,
             pid + 2)
        else (.line ps, offset + points, ov, pid)
      | .polygon rings =>
        match scanRings index rings offset with
        | (none, o) => (.polygon rings, o, ov, pid)
        | (some (j, li), o) =>
          let r := rings.getD j []
          if li.tmod 2 == 0 then
            let r1 := r.set (li.tdiv 2).toNat mapPos
            let r2 := if ringClosed r && li == 0 then setBack r1 else r1
            (.polygon (rings.set j r2), o, ov, pid)
          else
            (.polygon (rings.set j (r.insertIdx (li.tdiv 2 + 1).toNat mapPos)),
             o,
             (ov.insertIdx (index + 1).toNat ⟨mapPos, true, pid⟩).insertIdx
               index.toNat ⟨mapPos, false, pid + 1⟩,
             pid + 2)
      | .multi gs =>
        let (gs', o, ov', pid') := updateGeometryPointList mapPos index gs offset ov pid
        (.multi gs', o, ov', pid')

/-- The multi-geometry loop of `updateGeometryPoint` (every child is kept:
the update never returns a null geometry). -/
def updateGeometryPointList (mapPos : α) (index : Int) :
    List (Geometry α) → Int → List (OverlayPoint α) → Nat →
    List (Geometry α) × Int × List (OverlayPoint α) × Nat
  | [], offset, ov, pid => ([], offset, ov, pid)
  | g :: gs, offset, ov, pid =>
    let (g', o1, ov1, pid1) := updateGeometryPoint mapPos index g offset ov pid
    let (gs', o2, ov2, pid2) := updateGeometryPointList mapPos index gs o1 ov1 pid1
    (g' :: gs', o2, ov2, pid2)
end

mutual
/-- `EditableVectorLayer::removeGeometryPoint` (lines 659-733).  A `none`
result is the C++ null geometry ("element fully deleted").  In the
small-ring branch of the polygon case the source locates the ring to drop
by value with `std::find(rings.begin(), rings.end(), ring)` over the whole
ring vector, so `List.findIdx` is applied to the full ring list. -/
def removeGeometryPoint (index : Int) :
    Geometry α → Int → List (OverlayPoint α) →
    Option (Geometry α) × Int × List (OverlayPoint α)
  | g, offset, ov =>
    if index < offset then (some g, offset, ov)
    else
      match g with
      | .point p =>
        (if index - offset < 1 then none else some (.point p), offset + 1, ov)
      | .line ps =>
        let points : Int := 2 * (ps.length : Int) - 1
        let li := index - offset
        if li < points then
          if li.tmod 2 == 0 then
            if ps.length > 2 then
              (some (.line (ps.eraseIdx (li.tdiv 2).toNat)),
               offset + points,
               (ov.eraseIdx index.toNat).eraseIdx
                 (if li > 0 then index - 1 else index).toNat)
            else (none, offset + points, ov)
          else (some (.line ps), offset + points, ov)
        else (some (.line ps), offset + points, ov)
      | .polygon rings =>
        match scanRings index rings offset with
        | (none, o) => (some (.polygon rings), o, ov)
        | (some (j, li), o) =>
          let r := rings.getD j []
          if li.tmod 2 == 0 then
            if ringPoints r > 6 then
              let r1 := r.eraseIdx (li.tdiv 2).toNat
              let r2 := if ringClosed r && li == 0 then setBack r1 else r1
              (some (.polygon (rings.set j r2)), o,
               (ov.eraseIdx (index + 1).toNat).eraseIdx index.toNat)
            else
              let n := rings.findIdx (· == r)
              if n > 0 then (some (.polygon (rings.eraseIdx n)), o, ov)
              else (none, o, ov)
          else (some (.polygon rings), o, ov)
      | .multi gs =>
        let (gs', o, ov') := removeGeometryPointList index gs offset ov
        (if gs'.isEmpty then none else some (.multi gs'), o, ov')

/-- The multi-geometry loop of `removeGeometryPoint`: children that
degenerate to null are dropped. -/
def removeGeometryPointList (index : Int) :
    List (Geometry α) → Int → List (OverlayPoint α) →
    List (Geometry α) × Int × List (OverlayPoint α)
  | [], offset, ov => ([], offset, ov)
  | g :: gs, offset, ov =>
    let (g', o1, ov1) := removeGeometryPoint index g offset ov
    let (gs', o2, ov2) := removeGeometryPointList index gs o1 ov1
    ((match g' with | some h => h :: gs' | none => gs'), o2, ov2)
end

/-!
## Layer state, collaborators and the touch-event state machine

`VectorElement` keeps its object identity (`ptr`, the `std::shared_ptr`
address: two model values with equal `ptr` stand for the same C++ object),
its id (`getId()`, `-1` when unset) and its geometry and visibility.
Edit-policy callbacks are an optional `VectorEditEventListener` of pure
functions; every call made through it during a step is recorded in an
event trace, so "no `onElementModify`/`onElementDelete` fired" is a
statement about the trace.  The listener owns the commit of modified
geometry to storage, so the element value itself is not rewritten by the
layer.  Point styles are opaque tokens (`Nat`).
-/

/-- A vector element: object identity, element id, geometry, visibility. -/
structure VectorElement (α : Type) where
  ptr : Nat
  eid : Int
  geometry : Geometry α
  visible : Bool
  deriving Repr

/-- `VectorElementDragMode`. -/
inductive DragMode where
  | vertex
  | element
  deriving Repr, DecidableEq

/-- `VectorElementDragResult`. -/
inductive DragResult where
  | ignore
  | stop
  | modify
  | delete
  deriving Repr, DecidableEq

/-- `VectorElementDragPointStyle`. -/
inductive DragPointStyleKind where
  | normal
  | virtualPt
  | selected
  deriving Repr, DecidableEq

/-- Touch actions handled by `TouchHandlerListener::onTouchEvent`. -/
inductive TouchAction where
  | pointerDown
  | move
  | pointerUp
  deriving Repr, DecidableEq

/-- One recorded call through the `VectorEditEventListener`. -/
inductive EditEvent (α : Type) where
  | elementSelect (e : VectorElement α)
  | elementDeselected (e : VectorElement α)
  | selectDragPointStyle (kind : DragPointStyleKind)
  | dragStart (mode : DragMode)
  | dragMove (mode : DragMode)
  | dragEnd (mode : DragMode)
  | elementModify (e : VectorElement α) (g : Option (Geometry α))
  | elementDelete (e : VectorElement α)
  deriving Repr

/-- Whether an event is a structural-change request
(`onElementModify` or `onElementDelete`). -/
def EditEvent.isMutation : EditEvent α → Bool
  | .elementModify _ _ => true
  | .elementDelete _ => true
  | _ => false

/-- Whether an event is an `onDragStart` call with the given mode. -/
def EditEvent.isDragStartOf (mode : DragMode) : EditEvent α → Bool
  | .dragStart mo => mo == mode
  | _ => false

/-- The edit-policy collaborator (`VectorEditEventListener`), as pure
response functions. -/
structure VectorEditEventListener (α : Type) where
  onElementSelect : VectorElement α → Bool
  onSelectDragPointStyle : VectorElement α → DragPointStyleKind → Option Nat
  onDragStart : DragMode → DragResult
  onDragMove : DragMode → DragResult
  onDragEnd : DragMode → DragResult

/-- The mutable selection/overlay/drag tuple of `EditableVectorLayer`
(the fields guarded by `_mutex`), plus the fresh-identity counter for
overlay point allocation. -/
structure LayerState (α : Type) where
  selectedVectorElement : Option (VectorElement α)
  overlayPoints : List (OverlayPoint α)
  overlayDragPoint : Option (OverlayPoint α)
  overlayDragGeometry : Option (Geometry α)
  overlayDragGeometryPos : α
  overlayDragStarted : Bool
  overlayDragMode : DragMode
  overlayStyleNormal : Option Nat
  overlayStyleVirtual : Option Nat
  overlayStyleSelected : Option Nat
  nextPid : Nat
  deriving Repr

/-- Per-event environment of `onTouchEvent`: availability of the renderer
collaborators, finiteness of the screen-to-world projection, the projected
map position, and the two ray-intersection result lists (overlay handles
first, then rendered element bodies, both nearest-first). -/
structure TouchEnv (α : Type) where
  hasMapRenderer : Bool
  hasProjectionSurface : Bool
  worldPosFinite : Bool
  mapPos1 : α
  overlayHits : List (OverlayPoint α)
  bodyHits : List (VectorElement α)
  deriving Repr

/-- `EditableVectorLayer::IsSameElement` (lines 819-830): null-aware
pointer identity, then id comparison with `-1` ("transient") never
matching by id. -/
def IsSameElement : Option (VectorElement α) → Option (VectorElement α) → Bool
  | none, none => true
  | none, some _ => false
  | some _, none => false
  | some e1, some e2 =>
    if e1.ptr == e2.ptr then true
    else if e1.eid == -1 then false
    else e1.eid == e2.eid

/-- Pointer equality of two nullable element handles
(`std::shared_ptr<VectorElement>` `==`). -/
def optPtrEq : Option (VectorElement α) → Option (VectorElement α) → Bool
  | none, none => true
  | some a, some b => a.ptr == b.ptr
  | _, _ => false

/-- `EditableVectorLayer::syncElementOverlayPoints` (lines 735-750):
rebuild the overlay point list from the element's geometry when it is
present and visible, else clear it.  `ok` is the renderer availability
checked inside `createGeometryOverlayPoints`. -/
def syncElementOverlayPoints (ok : Bool) (m : α → α → α)
    (st : LayerState α) (element : Option (VectorElement α)) : LayerState α :=
  let ovp : List (OverlayPoint α) :=
    match element with
    | some e =>
      if e.visible then (createGeometryOverlayPoints ok m e.geometry 0).1 else []
    | none => []
  { st with overlayPoints := ovp }

/-- `EditableVectorLayer::updateElementPoint` (lines 533-563): locate the
drag handle by object identity in `_overlayPoints` (a null handle matches
nothing), run `updateGeometryPoint` from offset 0, report the new geometry
through `onElementModify` (the update never yields a null geometry), and
rebuild the overlay. -/
def updateElementPoint (ok : Bool) (m : α → α → α)
    (listener : Option (VectorEditEventListener α)) (st : LayerState α)
    (element : Option (VectorElement α)) (dragPoint : Option (OverlayPoint α))
    (mapPos : α) : LayerState α × List (EditEvent α) :=
  match element with
  | none => (st, [])
  | some el =>
    match dragPoint.bind (fun p => st.overlayPoints.findIdx? (· == p)) with
    | none => (st, [])
    | some idx =>
      let (g', _, ov', pid') :=
        updateGeometryPoint mapPos (idx : Int) el.geometry 0 st.overlayPoints st.nextPid
      let st1 := { st with overlayPoints := ov', nextPid := pid' }
      (syncElementOverlayPoints ok m st1 (some el),
       match listener with
       | some _ => [.elementModify el (some g')]
       | none => [])

/-- `EditableVectorLayer::removeElementPoint` (lines 627-657): locate the
drag handle, run `removeGeometryPoint`; a null result is reported through
`onElementDelete` and the element handle is reset before the overlay
rebuild (clearing the overlay). -/
def removeElementPoint (ok : Bool) (m : α → α → α)
    (listener : Option (VectorEditEventListener α)) (st : LayerState α)
    (element : Option (VectorElement α)) (dragPoint : Option (OverlayPoint α)) :
    LayerState α × List (EditEvent α) :=
  match element with
  | none => (st, [])
  | some el =>
    match dragPoint.bind (fun p => st.overlayPoints.findIdx? (· == p)) with
    | none => (st, [])
    | some idx =>
      let (g', _, ov') := removeGeometryPoint (idx : Int) el.geometry 0 st.overlayPoints
      let st1 := { st with overlayPoints := ov' }
      match g' with
      | some g2 =>
        (syncElementOverlayPoints ok m st1 (some el),
         match listener with
         | some _ => [.elementModify el (some g2)]
         | none => [])
      | none =>
        (syncElementOverlayPoints ok m st1 none,
         match listener with
         | some _ => [.elementDelete el]
         | none => [])

mutual
/-- `EditableVectorLayer::updateGeometryPoints` (lines 482-519): translate
every coordinate of the tree by the rigid transform mapping `mapPos0` to
`mapPos1`; the projection-surface arithmetic is the abstract parameter
`tr`.  `ok` is the `viewState.getProjectionSurface()` null check. -/
def updateGeometryPoints (ok : Bool) (tr : α → α → α → α) (mapPos0 mapPos1 : α) :
    Geometry α → Geometry α
  | .point p => if !ok then .point p else .point (tr mapPos0 mapPos1 p)
  | .line ps => if !ok then .line ps else .line (ps.map (tr mapPos0 mapPos1))
  | .polygon rings =>
    if !ok then .polygon rings
    else .polygon (rings.map (List.map (tr mapPos0 mapPos1)))
  | .multi gs =>
    if !ok then .multi gs
    else .multi (updateGeometryPointsList ok tr mapPos0 mapPos1 gs)

/-- The multi-geometry loop of `updateGeometryPoints`. -/
def updateGeometryPointsList (ok : Bool) (tr : α → α → α → α) (mapPos0 mapPos1 : α) :
    List (Geometry α) → List (Geometry α)
  | [] => []
  | g :: gs =>
    updateGeometryPoints ok tr mapPos0 mapPos1 g ::
      updateGeometryPointsList ok tr mapPos0 mapPos1 gs
end

/-- `EditableVectorLayer::updateElementGeometry` (lines 463-480): when the
two reference positions differ, translate the drag-start geometry snapshot
(a possibly null handle) by the world-space transform between them, then
report the result through `onElementModify` and rebuild the overlay. -/
def updateElementGeometry (ok : Bool) (m : α → α → α) (tr : α → α → α → α)
    (listener : Option (VectorEditEventListener α)) (st : LayerState α)
    (element : Option (VectorElement α)) (geometry : Option (Geometry α))
    (mapPos0 mapPos1 : α) : LayerState α × List (EditEvent α) :=
  match element with
  | none => (st, [])
  | some el =>
    let geometry' :=
      if mapPos0 != mapPos1 then
        geometry.map (updateGeometryPoints ok tr mapPos0 mapPos1)
      else geometry
    (syncElementOverlayPoints ok m st (some el),
     match listener with
     | some _ => [.elementModify el geometry']
     | none => [])

/-- `EditableVectorLayer::removeElement` (lines 521-531): report
`onElementDelete`, reset the element handle and rebuild (clear) the
overlay. -/
def removeElement (ok : Bool) (m : α → α → α)
    (listener : Option (VectorEditEventListener α)) (st : LayerState α)
    (el : VectorElement α) : LayerState α × List (EditEvent α) :=
  (syncElementOverlayPoints ok m st none,
   match listener with
   | some _ => [.elementDelete el]
   | none => [])

/-- The `for (const RayIntersectedElement& result : results)` loop of the
`ACTION_POINTER_1_DOWN` case (lines 345-373): skip hits that are not
pointer-identical to the selected element; on a match ask the policy, and
on `Ignore` reset the candidate and continue with the next hit.  Falling
out of the loop reaches the final `return false`. -/
def touchDownElementLoop (ok : Bool) (m : α → α → α) (tr : α → α → α → α)
    (listener : Option (VectorEditEventListener α)) (env : TouchEnv α)
    (sel : VectorElement α) :
    List (VectorElement α) → LayerState α →
    Bool × LayerState α × List (EditEvent α)
  | [], st => (false, st, [])
  | e :: rest, st =>
    if e.ptr != sel.ptr then touchDownElementLoop ok m tr listener env sel rest st
    else
      let dragResult := match listener with
        | some l => l.onDragStart .element
        | none => .ignore
      let evs : List (EditEvent α) := match listener with
        | some _ => [.dragStart .element]
        | none => []
      let st1 := { st with overlayDragMode := DragMode.element,
                           overlayDragGeometry := some sel.geometry,
                           overlayDragGeometryPos := env.mapPos1 }
      match dragResult with
      | .ignore =>
        let (b, st', evs') := touchDownElementLoop ok m tr listener env sel rest
          { st1 with overlayDragGeometry := none }
        (b, st', evs ++ evs')
      | .stop => (false, { st1 with overlayDragGeometry := none }, evs)
      | .modify =>
        let (st2, evs2) := updateElementGeometry ok m tr listener
          { st1 with overlayDragStarted := true } (some sel) (some sel.geometry)
          default default
        (true, st2, evs ++ evs2)
      | .delete =>
        let (st2, evs2) := removeElement ok m listener st1 sel
        (true, st2, evs ++ evs2)

/-- The `ACTION_POINTER_1_DOWN` case (lines 310-375): the overlay-handle
ray-cast is tried first; its `Ignore` disposition (and the no-hit case)
falls through to the element-body loop.  `selectedPoint` is the
`_overlayDragPoint` snapshot taken before the hit test. -/
def touchDown (ok : Bool) (m : α → α → α) (tr : α → α → α → α)
    (listener : Option (VectorEditEventListener α)) (env : TouchEnv α)
    (sel : VectorElement α) (selectedPoint : Option (OverlayPoint α))
    (st : LayerState α) : Bool × LayerState α × List (EditEvent α) :=
  match env.overlayHits with
  | hit :: _ =>
    let dragResult := match listener with
      | some l => l.onDragStart .vertex
      | none => .ignore
    let evs : List (EditEvent α) := match listener with
      | some _ => [.dragStart .vertex]
      | none => []
    let st1 := { st with overlayDragMode := DragMode.vertex,
                         overlayDragPoint := some hit }
    match dragResult with
    | .ignore =>
      let (b, st', evs') := touchDownElementLoop ok m tr listener env sel
        env.bodyHits { st1 with overlayDragPoint := none }
      (b, st', evs ++ evs')
    | .stop => (true, { st1 with overlayDragPoint := none }, evs)
    | .modify =>
      let (st2, evs2) := updateElementPoint ok m listener
        { st1 with overlayDragStarted := true } (some sel) selectedPoint env.mapPos1
      (true, st2, evs ++ evs2)
    | .delete =>
      let (st2, evs2) := removeElementPoint ok m listener st1 (some sel) selectedPoint
      (true, st2, evs ++ evs2)
  | [] => touchDownElementLoop ok m tr listener env sel env.bodyHits st

/-- The `ACTION_MOVE` case (lines 376-416). -/
def touchMove (ok : Bool) (m : α → α → α) (tr : α → α → α → α)
    (listener : Option (VectorEditEventListener α)) (env : TouchEnv α)
    (sel : VectorElement α) (selectedPoint : Option (OverlayPoint α))
    (selectedGeometry : Option (Geometry α)) (st : LayerState α) :
    Bool × LayerState α × List (EditEvent α) :=
  if !st.overlayDragStarted then (false, st, [])
  else
    let dragResult := match listener with
      | some l => l.onDragMove st.overlayDragMode
      | none => .ignore
    let evs : List (EditEvent α) := match listener with
      | some _ => [.dragMove st.overlayDragMode]
      | none => []
    match dragResult with
    | .ignore => (false, st, evs)
    | .stop =>
      (true, { st with overlayDragPoint := none, overlayDragGeometry := none,
                       overlayDragStarted := false }, evs)
    | .modify =>
      if st.overlayDragMode == DragMode.vertex then
        let (st2, evs2) := updateElementPoint ok m listener st (some sel)
          selectedPoint env.mapPos1
        (true, st2, evs ++ evs2)
      else
        let (st2, evs2) := updateElementGeometry ok m tr listener st (some sel)
          selectedGeometry st.overlayDragGeometryPos env.mapPos1
        (true, st2, evs ++ evs2)
    | .delete =>
      let st1 := { st with overlayDragPoint := none, overlayDragGeometry := none,
                           overlayDragStarted := false }
      if st.overlayDragMode == DragMode.vertex then
        let (st2, evs2) := removeElementPoint ok m listener st1 (some sel) selectedPoint
        (true, st2, evs ++ evs2)
      else
        let (st2, evs2) := removeElement ok m listener st1 sel
        (true, st2, evs ++ evs2)

/-- The `ACTION_POINTER_1_UP` case (lines 417-457). -/
def touchUp (ok : Bool) (m : α → α → α) (tr : α → α → α → α)
    (listener : Option (VectorEditEventListener α)) (env : TouchEnv α)
    (sel : VectorElement α) (selectedPoint : Option (OverlayPoint α))
    (selectedGeometry : Option (Geometry α)) (st : LayerState α) :
    Bool × LayerState α × List (EditEvent α) :=
  if !st.overlayDragStarted then (false, st, [])
  else
    let dragResult := match listener with
      | some l => l.onDragEnd st.overlayDragMode
      | none => .ignore
    let evs : List (EditEvent α) := match listener with
      | some _ => [.dragEnd st.overlayDragMode]
      | none => []
    let st1 := { st with overlayDragStarted := false, overlayDragPoint := none,
                         overlayDragGeometry := none }
    match dragResult with
    | .ignore => (false, st1, evs)
    | .stop => (true, st1, evs)
    | .modify =>
      if st.overlayDragMode == DragMode.vertex then
        let (st2, evs2) := updateElementPoint ok m listener st1 (some sel)
          selectedPoint env.mapPos1
        (true, st2, evs ++ evs2)
      else
        let (st2, evs2) := updateElementGeometry ok m tr listener st1 (some sel)
          selectedGeometry st.overlayDragGeometryPos env.mapPos1
        (true, st2, evs ++ evs2)
    | .delete =>
      if st.overlayDragMode == DragMode.vertex then
        let (st2, evs2) := removeElementPoint ok m listener st1 (some sel) selectedPoint
        (true, st2, evs ++ evs2)
      else
        let (st2, evs2) := removeElement ok m listener st1 sel
        (true, st2, evs ++ evs2)

/-- `EditableVectorLayer::TouchHandlerListener::onTouchEvent`
(lines 277-461).  Returns whether the event was consumed, the new layer
state, and the trace of listener calls.  The guards mirror the source
order: renderer and projection-surface availability, the `isnan` check on
the projected world position, then presence of a selected element; the
`_overlayDragPoint` / `_overlayDragGeometry` snapshots are taken before
the action dispatch. -/
def onTouchEvent (m : α → α → α) (tr : α → α → α → α)
    (listener : Option (VectorEditEventListener α)) (env : TouchEnv α)
    (action : TouchAction) (st : LayerState α) :
    Bool × LayerState α × List (EditEvent α) :=
  if !env.hasMapRenderer then (false, st, [])
  else if !env.hasProjectionSurface then (false, st, [])
  else if !env.worldPosFinite then (false, st, [])
  else
    match st.selectedVectorElement with
    | none => (false, st, [])
    | some sel =>
      let selectedPoint := st.overlayDragPoint
      let selectedGeometry := st.overlayDragGeometry
      let ok := env.hasMapRenderer && env.hasProjectionSurface
      match action with
      | .pointerDown => touchDown ok m tr listener env sel selectedPoint st
      | .move => touchMove ok m tr listener env sel selectedPoint selectedGeometry st
      | .pointerUp => touchUp ok m tr listener env sel selectedPoint selectedGeometry st

/-- `EditableVectorLayer::setSelectedVectorElement` (lines 72-115): no-op
for a pointer-identical selection; otherwise clear the selection, overlay,
drag and style state, then (only when a listener is present) notify
deselection, and commit the new element with its style triple only if
`onElementSelect` approves. -/
def setSelectedVectorElement (listener : Option (VectorEditEventListener α))
    (st : LayerState α) (element : Option (VectorElement α)) :
    LayerState α × List (EditEvent α) :=
  let oldSelected := st.selectedVectorElement
  if optPtrEq element oldSelected then (st, [])
  else
    let st1 := { st with selectedVectorElement := none,
                         overlayPoints := [],
                         overlayDragPoint := none,
                         overlayDragGeometry := none,
                         overlayDragStarted := false,
                         overlayStyleNormal := none,
                         overlayStyleVirtual := none,
                         overlayStyleSelected := none }
    match listener with
    | none => (st1, [])
    | some l =>
      let evs0 : List (EditEvent α) := match oldSelected with
        | some old => [.elementDeselected old]
        | none => []
      match element with
      | none => (st1, evs0)
      | some e =>
        if l.onElementSelect e then
          ({ st1 with selectedVectorElement := some e,
                      overlayStyleNormal := l.onSelectDragPointStyle e .normal,
                      overlayStyleVirtual := l.onSelectDragPointStyle e .virtualPt,
                      overlayStyleSelected := l.onSelectDragPointStyle e .selected },
           evs0 ++ [.elementSelect e, .selectDragPointStyle .normal,
                    .selectDragPointStyle .virtualPt, .selectDragPointStyle .selected])
        else (st1, evs0 ++ [.elementSelect e])

/-!
## Specification-side slot counting (spec section 3)

`slotCount` is the specification formula for the number of overlay handle
slots of a geometry (Point = 1, Line of `N` vertices = `2N - 1`, Polygon =
sum over rings of `2 * ringLen` minus 2 when the ring is closed, Collection
= sum over children), written with truncated `Nat` subtraction (the line
and ring formulas are only meaningful for the nonempty vertex lists the
data model admits, where no truncation occurs). -/

mutual
/-- Spec formula for the overlay slot count of a geometry. -/
def slotCount : Geometry α → Nat
  | .point _ => 1
  | .line ps => 2 * ps.length - 1
  | .polygon rings =>
    (rings.map fun r => 2 * r.length - (if ringClosed r then 2 else 0)).sum
  | .multi gs => slotCountList gs

/-- Spec formula summed over the children of a collection. -/
def slotCountList : List (Geometry α) → Nat
  | [] => 0
  | g :: gs => slotCount g + slotCountList gs
end

/-! ## Helper lemmas -/

theorem ringClosed_pos {ring : List α} (h : ringClosed ring = true) :
    0 < ring.length := by
  cases ring with
  | nil => simp [ringClosed] at h
  | cons a l => simp

theorem ringPoints_nonneg (ring : List α) : 0 ≤ ringPoints ring := by
  unfold ringPoints
  by_cases h : ringClosed ring = true
  · have := ringClosed_pos h
    simp only [h, if_pos]
    omega
  · simp only [h]
    simp

theorem lineTailPoints_length (m : α → α → α) (prev : α) (vs : List α) (idx : Nat) :
    (lineTailPoints m prev vs idx).1.length = 2 * vs.length := by
  induction vs generalizing prev idx with
  | nil => simp [lineTailPoints]
  | cons v vs ih => simp [lineTailPoints, ih]; omega

theorem lineOverlayPoints_length (m : α → α → α) (ps : List α) (idx : Nat) :
    (lineOverlayPoints m ps idx).1.length = 2 * ps.length - 1 := by
  cases ps with
  | nil => simp [lineOverlayPoints]
  | cons v vs =>
    simp [lineOverlayPoints, lineTailPoints_length]
    omega

theorem ringOverlayPoints_length (m : α → α → α) (ring : List α) (idx : Nat) :
    (ringOverlayPoints m ring idx).1.length =
      2 * ring.length - (if ringClosed ring then 2 else 0) := by
  unfold ringOverlayPoints
  simp only [List.length_flatMap, List.length_cons, List.length_singleton]
  have h2 : ∀ l : List Nat, (∀ x ∈ l, x = 2) → l.sum = 2 * l.length := by
    intro l
    induction l with
    | nil => simp
    | cons a l ih =>
      intro h
      simp only [List.sum_cons, List.length_cons, h a (by simp)]
      rw [ih (fun x hx => h x (by simp [hx]))]
      ring
  rw [h2 _ (by intro x hx; simp at hx; obtain ⟨i, _, hx⟩ := hx; omega)]
  simp only [List.length_map, List.length_range]
  by_cases hc : ringClosed ring = true
  · have := ringClosed_pos hc
    simp only [hc, if_pos]
    omega
  · simp only [hc]
    simp

theorem polyOverlayPoints_length (m : α → α → α) (rings : List (List α)) (idx : Nat) :
    (polyOverlayPoints m rings idx).1.length =
      (rings.map fun r => 2 * r.length - (if ringClosed r then 2 else 0)).sum := by
  induction rings generalizing idx with
  | nil => simp [polyOverlayPoints]
  | cons r rs ih =>
    simp [polyOverlayPoints, ringOverlayPoints_length, ih]

mutual
theorem createGeometryOverlayPoints_length (m : α → α → α) :
    ∀ (g : Geometry α) (idx : Nat),
      (createGeometryOverlayPoints true m g idx).1.length = slotCount g
  | .point p, idx => by simp [createGeometryOverlayPoints, slotCount]
  | .line ps, idx => by
    simp [createGeometryOverlayPoints, slotCount, lineOverlayPoints_length]
  | .polygon rings, idx => by
    simp [createGeometryOverlayPoints, slotCount, polyOverlayPoints_length]
  | .multi gs, idx => by
    simpa [createGeometryOverlayPoints, slotCount] using
      multiOverlayPoints_length m gs idx

theorem multiOverlayPoints_length (m : α → α → α) :
    ∀ (gs : List (Geometry α)) (idx : Nat),
      (multiOverlayPoints true m gs idx).1.length = slotCountList gs
  | [], idx => by simp [multiOverlayPoints, slotCountList]
  | g :: gs, idx => by
    simp [multiOverlayPoints, slotCountList,
      createGeometryOverlayPoints_length m g idx]
    exact multiOverlayPoints_length m gs _
end

/-- C1: for every geometry tree, the overlay-point build
(`createGeometryOverlayPoints`, starting at index 0 on an empty output)
produces a sequence whose length equals the sum over leaf shapes of their
slot counts: 1 for a point, `2N - 1` for a line of `N` vertices, for a
polygon the sum over rings of `2 * ringLen` minus 2 if the ring is closed
(first position equal to last) else minus 0, and for a collection the sum
over its children. -/
theorem overlay_build_length_eq_slotCount (m : α → α → α) (g : Geometry α) :
    (createGeometryOverlayPoints true m g 0).1.length = slotCount g :=
  createGeometryOverlayPoints_length m g 0

/-!
## Concrete fixtures for witnesses and counterexamples

Small closed instances over `α := Int`: a concrete midpoint function, a
concrete translation, a two-vertex line element with its overlay, and
policy listeners answering every drag query with a fixed disposition.
-/

/-- A concrete midpoint function (injective enough to tell points apart). -/
def mmid : Int → Int → Int := fun a b => a * 100 + b

/-- A concrete whole-shape translation collaborator. -/
def ttr : Int → Int → Int → Int := fun _ p1 p => p + p1

/-- A two-vertex line geometry. -/
def egLine : Geometry Int := .line [10, 20]

/-- The overlay points of `egLine` as built with `mmid`. -/
def ovLine : List (OverlayPoint Int) := [⟨10, false, 0⟩, ⟨1020, true, 1⟩, ⟨20, false, 2⟩]

/-- A layer state with nothing selected. -/
def emptyState : LayerState Int :=
  ⟨none, [], none, none, 0, false, .vertex, none, none, none, 0⟩

/-- A transient-id element owning `egLine`. -/
def elemA : VectorElement Int := ⟨1, -1, egLine, true⟩

/-- An element with id 5. -/
def elemSameId1 : VectorElement Int := ⟨2, 5, egLine, true⟩

/-- A distinct object that carries the same id 5. -/
def elemSameId2 : VectorElement Int := ⟨3, 5, egLine, true⟩

/-- A quiescent layer state with `elemA` selected. -/
def stSelA : LayerState Int :=
  ⟨some elemA, ovLine, none, none, 0, false, .vertex, none, none, none, 100⟩

/-- A quiescent layer state with `elemSameId1` selected. -/
def stSelSameId : LayerState Int :=
  ⟨some elemSameId1, ovLine, none, none, 0, false, .vertex, none, none, none, 100⟩

/-- A listener answering every drag query with the fixed disposition `r`. -/
def listenerAll (r : DragResult) : VectorEditEventListener Int :=
  ⟨fun _ => true, fun _ _ => some 1, fun _ => r, fun _ => r, fun _ => r⟩

/-- A touch environment with all collaborators available. -/
def envOf (oh : List (OverlayPoint Int)) (bh : List (VectorElement Int)) :
    TouchEnv Int := ⟨true, true, true, 55, oh, bh⟩

/-!
## Claims about the touch handler and the selection manager
-/

/-- C8: for every touch event whose screen-to-world projection yields a
non-finite (NaN) world position, the touch handler returns not-consumed
(`false`) immediately, and no selection, overlay, drag-state, or geometry
change occurs and no policy callback fires for that event. -/
theorem touch_nan_projection_unconsumed (m : α → α → α) (tr : α → α → α → α)
    (listener : Option (VectorEditEventListener α)) (env : TouchEnv α)
    (action : TouchAction) (st : LayerState α)
    (h : env.worldPosFinite = false) :
    onTouchEvent m tr listener env action st = (false, st, []) := by
  obtain ⟨hmr, hps, wpf, mp, oh, bh⟩ := env
  simp only at h
  subst h
  cases hmr <;> cases hps <;> simp [onTouchEvent]

/-- Witness for C8 at a concrete NaN event. -/
theorem touch_nan_projection_unconsumed_witness :
    (TouchEnv.worldPosFinite (α := Int) ⟨true, true, false, 0, [], []⟩ = false) ∧
    onTouchEvent mmid ttr none ⟨true, true, false, 0, [], []⟩ .pointerDown stSelA =
      (false, stSelA, []) :=
  ⟨rfl, touch_nan_projection_unconsumed mmid ttr none _ .pointerDown stSelA rfl⟩

/-- C9: when no edit-event listener is registered, selecting a new
(non-pointer-identical) element still clears the previous selection and
the overlay/drag/style state and emits no callback, but never commits the
new element — the selection afterwards is null; and in general a new
selection is committed only when a listener exists and its
`onElementSelect` returns `true`. -/
theorem setSelected_commit_requires_listener
    (listener : Option (VectorEditEventListener α)) (st : LayerState α)
    (e : VectorElement α)
    (hnew : optPtrEq (some e) st.selectedVectorElement = false) :
    (listener = none →
      (setSelectedVectorElement listener st (some e)).1.selectedVectorElement = none ∧
      (setSelectedVectorElement listener st (some e)).1.overlayPoints = [] ∧
      (setSelectedVectorElement listener st (some e)).1.overlayDragPoint = none ∧
      (setSelectedVectorElement listener st (some e)).1.overlayDragGeometry = none ∧
      (setSelectedVectorElement listener st (some e)).1.overlayDragStarted = false ∧
      (setSelectedVectorElement listener st (some e)).1.overlayStyleNormal = none ∧
      (setSelectedVectorElement listener st (some e)).1.overlayStyleVirtual = none ∧
      (setSelectedVectorElement listener st (some e)).1.overlayStyleSelected = none ∧
      (setSelectedVectorElement listener st (some e)).2 = []) ∧
    (∀ e', (setSelectedVectorElement listener st (some e)).1.selectedVectorElement = some e' →
      ∃ l, listener = some l ∧ l.onElementSelect e = true ∧ e' = e) := by
  constructor
  · rintro rfl
    simp [setSelectedVectorElement, hnew]
  · intro e' he'
    cases listener with
    | none => simp [setSelectedVectorElement, hnew] at he'
    | some l =>
      by_cases hsel : l.onElementSelect e
      · refine ⟨l, rfl, hsel, ?_⟩
        simp [setSelectedVectorElement, hnew, hsel] at he'
        exact he'.symm
      · simp [setSelectedVectorElement, hnew, hsel] at he'

/-- Witness for C9: selecting a fresh element with no listener present. -/
theorem setSelected_commit_requires_listener_witness :
    optPtrEq (some elemA) emptyState.selectedVectorElement = false ∧
    ((none : Option (VectorEditEventListener Int)) = none →
      (setSelectedVectorElement none emptyState (some elemA)).1.selectedVectorElement = none ∧
      (setSelectedVectorElement none emptyState (some elemA)).1.overlayPoints = [] ∧
      (setSelectedVectorElement none emptyState (some elemA)).1.overlayDragPoint = none ∧
      (setSelectedVectorElement none emptyState (some elemA)).1.overlayDragGeometry = none ∧
      (setSelectedVectorElement none emptyState (some elemA)).1.overlayDragStarted = false ∧
      (setSelectedVectorElement none emptyState (some elemA)).1.overlayStyleNormal = none ∧
      (setSelectedVectorElement none emptyState (some elemA)).1.overlayStyleVirtual = none ∧
      (setSelectedVectorElement none emptyState (some elemA)).1.overlayStyleSelected = none ∧
      (setSelectedVectorElement none emptyState (some elemA)).2 = []) ∧
    (∀ e', (setSelectedVectorElement none emptyState (some elemA)).1.selectedVectorElement = some e' →
      ∃ l, (none : Option (VectorEditEventListener Int)) = some l ∧
        l.onElementSelect elemA = true ∧ e' = elemA) :=
  ⟨rfl, setSelected_commit_requires_listener none emptyState elemA rfl⟩

/-- C5 counterexample: at a pointer-down resolved as a whole-shape drag
candidate (body hit on the selected element, no overlay-handle hit), a
`Stop` answer from `onDragStart` makes the handler return `false` — the
event is reported as not consumed, contradicting the claim that `Stop`
always consumes the event. -/
theorem touch_stop_element_not_consumed_counterexample :
    (listenerAll .stop).onDragStart .element = .stop ∧
    stSelSameId.selectedVectorElement = some elemSameId1 ∧
    (envOf [] [elemSameId1]).bodyHits = [elemSameId1] ∧
    (onTouchEvent mmid ttr (some (listenerAll .stop)) (envOf [] [elemSameId1])
      .pointerDown stSelSameId).1 = false :=
  ⟨rfl, rfl, rfl, rfl⟩

/-- C6 counterexample: with no overlay-handle hit, a body hit on a distinct
object carrying the same element id as the selected element is *not*
resolved as a whole-shape drag candidate — no `onDragStart` fires and the
handler returns `false` — even though `IsSameElement` (id-based identity)
considers the two elements the same.  The hit loop compares raw pointers,
not element ids. -/
theorem touch_same_id_hit_not_resolved_counterexample :
    IsSameElement (some elemSameId2) (some elemSameId1) = true ∧
    elemSameId2.ptr ≠ elemSameId1.ptr ∧
    (listenerAll .modify).onDragStart .element = .modify ∧
    onTouchEvent mmid ttr (some (listenerAll .modify)) (envOf [] [elemSameId2])
      .pointerDown stSelSameId = (false, stSelSameId, []) :=
  ⟨rfl, by decide, rfl, rfl⟩

/-- C7 counterexample: at a pointer-down hitting an overlay handle with the
policy answering `Modify`, the handler consumes the event and enters the
dragging state, but emits no `onElementModify` and leaves the overlay point
list unchanged: the hit handle's vertex is *not* moved as part of the
pointer-down, because `updateElementPoint` receives the `_overlayDragPoint`
snapshot taken before the hit test (null at a fresh down). -/
theorem touch_down_modify_no_transform_counterexample :
    (listenerAll .modify).onDragStart .vertex = .modify ∧
    stSelA.overlayDragPoint = none ∧
    (envOf [⟨10, false, 0⟩] []).overlayHits = [⟨10, false, 0⟩] ∧
    onTouchEvent mmid ttr (some (listenerAll .modify)) (envOf [⟨10, false, 0⟩] [])
      .pointerDown stSelA =
      (true,
       { stSelA with overlayDragMode := .vertex,
                     overlayDragPoint := some ⟨10, false, 0⟩,
                     overlayDragStarted := true },
       [.dragStart .vertex]) :=
  ⟨rfl, rfl, rfl, rfl⟩

/-- In the body-hit loop, a `Stop` policy answer never consumes the event,
never starts the drag, and requests no mutation. -/
theorem touchDownElementLoop_stop (ok : Bool) (m : α → α → α) (tr : α → α → α → α)
    (l : VectorEditEventListener α) (env : TouchEnv α) (sel : VectorElement α)
    (hstop : l.onDragStart .element = .stop) :
    ∀ (hits : List (VectorElement α)) (st : LayerState α),
      (touchDownElementLoop ok m tr (some l) env sel hits st).1 = false ∧
      (touchDownElementLoop ok m tr (some l) env sel hits st).2.1.overlayDragStarted =
        st.overlayDragStarted ∧
      ((touchDownElementLoop ok m tr (some l) env sel hits st).2.2.all
        fun e => !e.isMutation) = true
  | [], st => by simp [touchDownElementLoop]
  | e :: hits, st => by
    by_cases hp : (e.ptr != sel.ptr) = true
    · simpa [touchDownElementLoop, hp] using
        touchDownElementLoop_stop ok m tr l env sel hstop hits st
    · simp [touchDownElementLoop, hp, hstop, EditEvent.isMutation]

/-- The body-hit loop never changes the selected element, whatever the
listener answers. -/
theorem touchDownElementLoop_selection (ok : Bool) (m : α → α → α) (tr : α → α → α → α)
    (listener : Option (VectorEditEventListener α)) (env : TouchEnv α)
    (sel : VectorElement α) :
    ∀ (hits : List (VectorElement α)) (st : LayerState α),
      (touchDownElementLoop ok m tr listener env sel hits st).2.1.selectedVectorElement =
        st.selectedVectorElement
  | [], st => by simp [touchDownElementLoop]
  | e :: hits, st => by
    by_cases hp : (e.ptr != sel.ptr) = true
    · simpa [touchDownElementLoop, hp] using
        touchDownElementLoop_selection ok m tr listener env sel hits st
    · cases listener with
      | none =>
        simpa [touchDownElementLoop, hp] using
          touchDownElementLoop_selection ok m tr none env sel hits _
      | some l =>
        rcases hdr : l.onDragStart .element with _ | _ | _ | _
        · simpa [touchDownElementLoop, hp, hdr] using
            touchDownElementLoop_selection ok m tr (some l) env sel hits _
        · simp [touchDownElementLoop, hp, hdr]
        · simp [touchDownElementLoop, hp, hdr, updateElementGeometry,
            syncElementOverlayPoints]
        · simp [touchDownElementLoop, hp, hdr, removeElement,
            syncElementOverlayPoints]

/-- With a listener present, the body-hit loop calls `onDragStart` in
whole-shape mode exactly when some hit is pointer-identical to the
selected element. -/
theorem touchDownElementLoop_dragStart (ok : Bool) (m : α → α → α) (tr : α → α → α → α)
    (l : VectorEditEventListener α) (env : TouchEnv α) (sel : VectorElement α) :
    ∀ (hits : List (VectorElement α)) (st : LayerState α),
      ((touchDownElementLoop ok m tr (some l) env sel hits st).2.2.any
        (EditEvent.isDragStartOf .element)) =
        hits.any (fun e => e.ptr == sel.ptr)
  | [], st => by simp [touchDownElementLoop]
  | e :: hits, st => by
    by_cases hp : (e.ptr != sel.ptr) = true
    · have hne : (e.ptr == sel.ptr) = false := by
        simpa [bne] using hp
      simp only [touchDownElementLoop, hp, if_pos, List.any_cons, hne, Bool.false_or]
      exact touchDownElementLoop_dragStart ok m tr l env sel hits st
    · have heq : (e.ptr == sel.ptr) = true := by
        simpa [bne] using hp
      rcases hdr : l.onDragStart .element with _ | _ | _ | _ <;>
        simp [touchDownElementLoop, hp, hdr, heq, EditEvent.isDragStartOf]

/-- When no body hit is pointer-identical to the selected element the loop
falls through: the event is not consumed, the state is untouched and no
listener call is made. -/
theorem touchDownElementLoop_no_match (ok : Bool) (m : α → α → α) (tr : α → α → α → α)
    (listener : Option (VectorEditEventListener α)) (env : TouchEnv α)
    (sel : VectorElement α) :
    ∀ (hits : List (VectorElement α)) (st : LayerState α),
      (hits.all fun e => !(e.ptr == sel.ptr)) = true →
      touchDownElementLoop ok m tr listener env sel hits st = (false, st, [])
  | [], st => by simp [touchDownElementLoop]
  | e :: hits, st => by
    intro hall
    simp only [List.all_cons, Bool.and_eq_true] at hall
    have hp : (e.ptr != sel.ptr) = true := by
      simpa [bne] using hall.1
    simpa [touchDownElementLoop, hp] using
      touchDownElementLoop_no_match ok m tr listener env sel hits st hall.2

/-- C5 (amended): when the policy answers `Stop` at `onDragStart`, no drag
starts and no mutation and no `onElementModify`/`onElementDelete` call
occurs; the handler reports the event as consumed (`true`) when the
candidate was a vertex drag (overlay-handle hit), but as *not* consumed
(`false`) when the candidate was a whole-shape drag (body hit on the
selected element) — and also when nothing relevant was hit. -/
theorem touch_down_stop_semantics (m : α → α → α) (tr : α → α → α → α)
    (l : VectorEditEventListener α) (env : TouchEnv α) (st : LayerState α)
    (sel : VectorElement α)
    (hsel : st.selectedVectorElement = some sel)
    (hR : env.hasMapRenderer = true) (hP : env.hasProjectionSurface = true)
    (hW : env.worldPosFinite = true)
    (hstopV : l.onDragStart .vertex = .stop)
    (hstopE : l.onDragStart .element = .stop)
    (hns : st.overlayDragStarted = false) :
    ((onTouchEvent m tr (some l) env .pointerDown st).1 = !env.overlayHits.isEmpty) ∧
    (onTouchEvent m tr (some l) env .pointerDown st).2.1.overlayDragStarted = false ∧
    ((onTouchEvent m tr (some l) env .pointerDown st).2.2.all
      fun e => !e.isMutation) = true := by
  simp only [onTouchEvent, hR, hP, hW, hsel, Bool.not_true, Bool.false_eq_true,
    if_false, ite_false]
  cases hoh : env.overlayHits with
  | nil =>
    have h := touchDownElementLoop_stop (env.hasMapRenderer && env.hasProjectionSurface)
      m tr l env sel hstopE env.bodyHits st
    simp only [hR, hP] at h
    simp only [touchDown, hoh, List.isEmpty_nil, Bool.not_true]
    exact ⟨h.1, by rw [h.2.1, hns], h.2.2⟩
  | cons hit rest =>
    simp [touchDown, hoh, hstopV, hns, EditEvent.isMutation]

/-- Witness for the amended C5 at a concrete vertex-drag `Stop`. -/
theorem touch_down_stop_semantics_witness :
    stSelSameId.selectedVectorElement = some elemSameId1 ∧
    (listenerAll .stop).onDragStart .vertex = .stop ∧
    ((onTouchEvent mmid ttr (some (listenerAll .stop)) (envOf [⟨10, false, 0⟩] [])
        .pointerDown stSelSameId).1 =
      !(envOf [⟨10, false, 0⟩] []).overlayHits.isEmpty) ∧
    (onTouchEvent mmid ttr (some (listenerAll .stop)) (envOf [⟨10, false, 0⟩] [])
      .pointerDown stSelSameId).2.1.overlayDragStarted = false ∧
    ((onTouchEvent mmid ttr (some (listenerAll .stop)) (envOf [⟨10, false, 0⟩] [])
      .pointerDown stSelSameId).2.2.all fun e => !e.isMutation) = true := by
  refine ⟨rfl, rfl, ?_⟩
  exact (touch_down_stop_semantics mmid ttr (listenerAll .stop) _ stSelSameId
    elemSameId1 rfl rfl rfl rfl rfl rfl rfl).imp id id

/-- C6 (amended): at pointer-down with no overlay-handle hit, a body hit
is resolved as a whole-shape drag candidate (i.e. `onDragStart` fires in
whole-shape mode) exactly when the hit element is pointer-identical to the
currently selected element; id-based identity (`IsSameElement`) plays no
role here, the selection is never changed, and when no hit is
pointer-identical the handler consumes nothing and changes nothing. -/
theorem touch_down_body_match_by_pointer (m : α → α → α) (tr : α → α → α → α)
    (l : VectorEditEventListener α) (env : TouchEnv α) (st : LayerState α)
    (sel : VectorElement α)
    (hsel : st.selectedVectorElement = some sel)
    (hR : env.hasMapRenderer = true) (hP : env.hasProjectionSurface = true)
    (hW : env.worldPosFinite = true)
    (hoh : env.overlayHits = []) :
    ((onTouchEvent m tr (some l) env .pointerDown st).2.2.any
      (EditEvent.isDragStartOf .element)) =
      env.bodyHits.any (fun e => e.ptr == sel.ptr) ∧
    (onTouchEvent m tr (some l) env .pointerDown st).2.1.selectedVectorElement =
      st.selectedVectorElement ∧
    ((env.bodyHits.all fun e => !(e.ptr == sel.ptr)) = true →
      onTouchEvent m tr (some l) env .pointerDown st = (false, st, [])) := by
  simp only [onTouchEvent, hR, hP, hW, hsel, Bool.not_true, Bool.false_eq_true,
    if_false, ite_false, touchDown, hoh]
  refine ⟨touchDownElementLoop_dragStart _ m tr l env sel env.bodyHits st, ?_, ?_⟩
  · rw [touchDownElementLoop_selection _ m tr (some l) env sel env.bodyHits st, hsel]
  · exact touchDownElementLoop_no_match _ m tr (some l) env sel env.bodyHits st

/-- Witness for the amended C6: one matching and one id-only hit. -/
theorem touch_down_body_match_by_pointer_witness :
    stSelSameId.selectedVectorElement = some elemSameId1 ∧
    (envOf [] [elemSameId2, elemSameId1]).overlayHits = [] ∧
    ((onTouchEvent mmid ttr (some (listenerAll .modify))
        (envOf [] [elemSameId2, elemSameId1]) .pointerDown stSelSameId).2.2.any
      (EditEvent.isDragStartOf .element)) =
      (envOf [] [elemSameId2, elemSameId1]).bodyHits.any
        (fun e => e.ptr == elemSameId1.ptr) ∧
    (onTouchEvent mmid ttr (some (listenerAll .modify))
      (envOf [] [elemSameId2, elemSameId1]) .pointerDown
      stSelSameId).2.1.selectedVectorElement = stSelSameId.selectedVectorElement := by
  refine ⟨rfl, rfl, ?_⟩
  have h := touch_down_body_match_by_pointer mmid ttr (listenerAll .modify)
    (envOf [] [elemSameId2, elemSameId1]) stSelSameId elemSameId1 rfl rfl rfl rfl rfl
  exact ⟨h.1, h.2.1⟩

/-- C7 (amended): at a pointer-down hitting an overlay handle with the
policy answering `Modify` and no drag point left over from an earlier
gesture (`_overlayDragPoint` null, the invariant state of a fresh down),
the handler consumes the event and enters the dragging state — but applies
no point transform at the down event itself: the geometry-update routine
is invoked with the null pre-hit drag-point snapshot and no-ops, so no
`onElementModify` fires and the overlay is unchanged; the hit handle's
vertex first moves on a later move event. -/
theorem touch_down_modify_defers_transform (m : α → α → α) (tr : α → α → α → α)
    (l : VectorEditEventListener α) (env : TouchEnv α) (st : LayerState α)
    (sel : VectorElement α) (hit : OverlayPoint α) (rest : List (OverlayPoint α))
    (hsel : st.selectedVectorElement = some sel)
    (hR : env.hasMapRenderer = true) (hP : env.hasProjectionSurface = true)
    (hW : env.worldPosFinite = true)
    (hoh : env.overlayHits = hit :: rest)
    (hmod : l.onDragStart .vertex = .modify)
    (hfresh : st.overlayDragPoint = none) :
    onTouchEvent m tr (some l) env .pointerDown st =
      (true,
       { st with overlayDragMode := .vertex,
                 overlayDragPoint := some hit,
                 overlayDragStarted := true },
       [.dragStart .vertex]) := by
  simp [onTouchEvent, hR, hP, hW, hsel, touchDown, hoh, hmod, hfresh,
    updateElementPoint]

/-- Witness for the amended C7 on the concrete fresh-down fixture. -/
theorem touch_down_modify_defers_transform_witness :
    stSelA.selectedVectorElement = some elemA ∧
    stSelA.overlayDragPoint = none ∧
    (listenerAll .modify).onDragStart .vertex = .modify ∧
    onTouchEvent mmid ttr (some (listenerAll .modify)) (envOf [⟨10, false, 0⟩] [])
      .pointerDown stSelA =
      (true,
       { stSelA with overlayDragMode := .vertex,
                     overlayDragPoint := some ⟨10, false, 0⟩,
                     overlayDragStarted := true },
       [.dragStart .vertex]) :=
  ⟨rfl, rfl, rfl,
    touch_down_modify_defers_transform mmid ttr (listenerAll .modify) _ stSelA
      elemA ⟨10, false, 0⟩ [] rfl rfl rfl rfl rfl rfl rfl⟩

/-! ## List and ring helper lemmas for the mutator claims -/

theorem getD_append_length (pre : List β) (r : β) (post : List β) (d : β) :
    (pre ++ r :: post).getD pre.length d = r := by
  induction pre with
  | nil => rfl
  | cons a pre ih => simpa using ih

theorem set_append_length (pre : List β) (r x : β) (post : List β) :
    (pre ++ r :: post).set pre.length x = pre ++ x :: post := by
  induction pre with
  | nil => rfl
  | cons a pre ih => simp [ih]

theorem insertIdx2_decomp (l : List β) (n : Nat) (a b : β) (hn : n < l.length) :
    (l.insertIdx (n + 1) a).insertIdx n b =
      l.take n ++ b :: l.get ⟨n, hn⟩ :: a :: l.drop (n + 1) := by
  induction l generalizing n with
  | nil => simp at hn
  | cons x xs ih =>
    cases n with
    | zero => simp [List.insertIdx_succ_cons]
    | succ n =>
      have hn' : n < xs.length := by simpa using hn
      simp only [List.insertIdx_succ_cons, List.take_succ_cons, List.drop_succ_cons,
        List.cons_append, List.get_cons_succ]
      exact congrArg (x :: ·) (ih n hn')

theorem insertIdx2_length (l : List β) (n : Nat) (a b : β) (hn : n < l.length) :
    ((l.insertIdx (n + 1) a).insertIdx n b).length = l.length + 2 := by
  rw [insertIdx2_decomp l n a b hn]
  simp
  omega

theorem eraseIdx2_self (l : List β) (n : Nat) (h : n + 1 < l.length) :
    (l.eraseIdx n).eraseIdx n = l.take n ++ l.drop (n + 2) := by
  induction l generalizing n with
  | nil => simp at h
  | cons x xs ih =>
    cases n with
    | zero =>
      cases xs with
      | nil => simp at h
      | cons y ys => simp
    | succ n =>
      have h' : n + 1 < xs.length := by simpa using h
      simpa using ih n h'

theorem eraseIdx2_prev (l : List β) (n : Nat) (h : n + 1 < l.length) :
    (l.eraseIdx (n + 1)).eraseIdx n = l.take n ++ l.drop (n + 2) := by
  induction l generalizing n with
  | nil => simp at h
  | cons x xs ih =>
    cases n with
    | zero =>
      cases xs with
      | nil => simp at h
      | cons y ys => simp
    | succ n =>
      have h' : n + 1 < xs.length := by simpa using h
      simpa using ih n h'

theorem take_append_drop_length (l : List β) (i j : Nat) (hj : j ≤ l.length) (hij : i ≤ j) :
    (l.take i ++ l.drop j).length = l.length - (j - i) := by
  simp [List.length_take, List.length_drop]
  omega

theorem getD_mem_of_lt (l : List β) (j : Nat) (d : β) (h : j < l.length) :
    l.getD j d ∈ l := by
  rw [List.getD_eq_getElem l d h]
  exact List.getElem_mem h

theorem sum_ringPoints_nonneg (rs : List (List α)) :
    0 ≤ (rs.map ringPoints).sum := by
  induction rs with
  | nil => simp
  | cons r rs ih =>
    simp only [List.map_cons, List.sum_cons]
    have := ringPoints_nonneg r
    omega

/-- `scanRings` resolves a flat index aimed inside ring `pre.length`. -/
theorem scanRings_append (index : Int) (pre : List (List α)) (r : List α)
    (post : List (List α)) (o : Int)
    (hge : 0 ≤ index - (o + (pre.map ringPoints).sum))
    (hlt : index - (o + (pre.map ringPoints).sum) < ringPoints r) :
    scanRings index (pre ++ r :: post) o =
      (some (pre.length, index - (o + (pre.map ringPoints).sum)),
       o + (pre.map ringPoints).sum + ringPoints r) := by
  induction pre generalizing o with
  | nil =>
    simp only [List.map_nil, List.sum_nil, add_zero] at hge hlt
    simp only [List.nil_append, scanRings, if_pos hlt, List.length_nil,
      List.map_nil, List.sum_nil, add_zero]
  | cons q pre ih =>
    have hq0 := ringPoints_nonneg q
    have hpre := sum_ringPoints_nonneg pre
    simp only [List.map_cons, List.sum_cons] at hge hlt
    have hq : ¬ (index - o < ringPoints q) := by omega
    simp only [List.cons_append, scanRings, if_neg hq, List.append_eq]
    rw [ih (o + ringPoints q) (by omega) (by omega)]
    simp only [Option.map_some, List.length_cons, List.map_cons, List.sum_cons,
      add_assoc]
    rfl

/-! ## Parity helpers for the C++ `int` arithmetic -/

theorem odd_tmod_two_beq (k : Nat) : ((2 * (k : Int) + 1).tmod 2 == 0) = false := by
  rw [Int.tmod_eq_emod (by positivity) (by norm_num)]
  simp only [beq_eq_false_iff_ne, ne_eq]
  omega

theorem even_tmod_two_beq (k : Nat) : ((2 * (k : Int)).tmod 2 == 0) = true := by
  rw [Int.tmod_eq_emod (by positivity) (by norm_num)]
  simp only [beq_iff_eq]
  omega

theorem odd_tdiv_two (k : Nat) : (2 * (k : Int) + 1).tdiv 2 = k := by
  rw [Int.tdiv_eq_ediv (by positivity) (by norm_num)]
  omega

theorem even_tdiv_two (k : Nat) : (2 * (k : Int)).tdiv 2 = k := by
  rw [Int.tdiv_eq_ediv (by positivity) (by norm_num)]
  omega

/-! ## Ring-closure preservation lemmas -/

theorem ringClosed_iff_getElem (l : List α) :
    ringClosed l = true ↔ 0 < l.length ∧ l[0]? = l[l.length - 1]? := by
  unfold ringClosed
  rw [List.head?_eq_getElem?, List.getLast?_eq_getElem?]
  cases l with
  | nil => simp
  | cons a t => simp

theorem ringClosed_setBack (l : List α) (h : l ≠ []) :
    ringClosed (setBack l) = true := by
  have hlen : 0 < l.length := List.length_pos.mpr h
  rw [ringClosed_iff_getElem]
  unfold setBack
  refine ⟨by simpa using hlen, ?_⟩
  have hhead : some (l.headD default) = l[0]? := by
    cases l with
    | nil => simp at hlen
    | cons a t => simp
  by_cases h1 : l.length = 1
  · rw [List.length_set, h1]
  · have h2 : 0 < l.length - 1 := by omega
    rw [List.length_set]
    rw [List.getElem?_set_ne (by omega), List.getElem?_set_self (by omega)]
    exact hhead.symm

theorem ringClosed_set_interior (l : List α) (hcl : ringClosed l = true)
    (k : Nat) (x : α) (h1 : 0 < k) (h2 : k < l.length - 1) :
    ringClosed (l.set k x) = true := by
  rw [ringClosed_iff_getElem] at hcl ⊢
  rw [List.length_set]
  refine ⟨hcl.1, ?_⟩
  rw [List.getElem?_set_ne (by omega), List.getElem?_set_ne (by omega)]
  exact hcl.2

theorem ringClosed_insert_interior (l : List α) (hcl : ringClosed l = true)
    (j : Nat) (x : α) (h1 : 0 < j) (h2 : j ≤ l.length - 1) :
    ringClosed (l.insertIdx j x) = true := by
  rw [ringClosed_iff_getElem] at hcl ⊢
  obtain ⟨hlen, heq⟩ := hcl
  have hjlen : j ≤ l.length := by omega
  have hlen' : (l.insertIdx j x).length = l.length + 1 :=
    List.length_insertIdx j l hjlen
  refine ⟨by omega, ?_⟩
  rw [hlen']
  have hk' : j + (l.length - 1 - j) < l.length := by omega
  have e0 : (l.insertIdx j x)[0]? = l[0]? := by
    rw [List.getElem?_eq_getElem (by omega), List.getElem?_eq_getElem hlen]
    exact congrArg some (List.getElem_insertIdx_of_lt l x j 0 h1 hlen)
  have elast : (l.insertIdx j x)[l.length]? = l[l.length - 1]? := by
    rw [show l.length = j + (l.length - 1 - j) + 1 from by omega]
    rw [List.getElem?_eq_getElem (by rw [hlen']; omega),
      List.getElem?_eq_getElem (by omega)]
    exact congrArg some (List.getElem_insertIdx_add_succ l x j (l.length - 1 - j) hk')
  simp only [Nat.add_sub_cancel]
  rw [e0, elast, heq]

theorem ringClosed_erase_interior (l : List α) (hcl : ringClosed l = true)
    (k : Nat) (h1 : 0 < k) (h2 : k ≤ l.length - 2) :
    ringClosed (l.eraseIdx k) = true := by
  rw [ringClosed_iff_getElem] at hcl ⊢
  obtain ⟨hlen, heq⟩ := hcl
  have hlen2 : 2 ≤ l.length := by omega
  have hklen : k < l.length := by omega
  have hlen' : (l.eraseIdx k).length = l.length - 1 := by
    rw [List.length_eraseIdx]
    simp [hklen]
  refine ⟨by omega, ?_⟩
  rw [hlen']
  have e0 : (l.eraseIdx k)[0]? = l[0]? := by
    rw [List.getElem?_eq_getElem (by omega), List.getElem?_eq_getElem hlen]
    exact congrArg some (List.getElem_eraseIdx_of_lt l k 0 (by omega) h1)
  have elast : (l.eraseIdx k)[l.length - 1 - 1]? = l[l.length - 1]? := by
    rw [List.getElem?_eq_getElem (by rw [hlen']; omega)]
    rw [congrArg some (List.getElem_eraseIdx_of_ge l k (l.length - 1 - 1)
      (by rw [hlen']; omega) (by omega))]
    rw [← List.getElem?_eq_getElem (show l.length - 1 - 1 + 1 < l.length from by omega)]
    rw [show l.length - 1 - 1 + 1 = l.length - 1 from by omega]
  rw [e0, elast, heq]

/-- At a match, `scanRings` yields a ring position in range and a
nonnegative local index below that ring's slot count (given the entry
guard `offset <= index` of the mutators). -/
theorem scanRings_match_bounds (index : Int) :
    ∀ (rings : List (List α)) (o : Int) (j : Nat) (li o' : Int),
      scanRings index rings o = (some (j, li), o') →
      0 ≤ index - o →
      j < rings.length ∧ 0 ≤ li ∧ li < ringPoints (rings.getD j [])
  | [], o, j, li, o', h, hge => by simp [scanRings] at h
  | ring :: rest, o, j, li, o', h, hge => by
    by_cases hcnd : index - o < ringPoints ring
    · simp only [scanRings, if_pos hcnd, Prod.mk.injEq, Option.some.injEq] at h
      obtain ⟨⟨hj, hli⟩, _⟩ := h
      subst hj
      subst hli
      exact ⟨by simp, hge, by simpa using hcnd⟩
    · simp only [scanRings, if_neg hcnd] at h
      rcases hres : scanRings index rest (o + ringPoints ring) with ⟨res, o2⟩
      rw [hres] at h
      cases res with
      | none => simp at h
      | some p =>
        simp only [Option.map_some', Prod.mk.injEq, Option.some.injEq] at h
        obtain ⟨⟨hj, hli⟩, _⟩ := h
        have hrec := scanRings_match_bounds index rest (o + ringPoints ring)
          p.1 p.2 o2 (by rw [hres]) (by omega)
        subst hj
        subst hli
        exact ⟨by simpa using hrec.1, hrec.2.1, by simpa using hrec.2.2⟩

/-- `tdiv` by 2 of a nonnegative `Int` is nonnegative. -/
theorem tdiv_two_nonneg (li : Int) (h0 : 0 ≤ li) : 0 ≤ li.tdiv 2 := by
  rw [Int.tdiv_eq_ediv h0 (by norm_num)]
  omega

/-- An even local C++ index written through `tdiv`/`toNat`. -/
theorem even_li_repr (li : Int) (h0 : 0 ≤ li) (hp : (li.tmod 2 == 0) = true) :
    li = 2 * ((li.tdiv 2).toNat : Int) := by
  rw [Int.tdiv_eq_ediv h0 (by norm_num)]
  simp only [beq_iff_eq] at hp
  rw [Int.tmod_eq_emod h0 (by norm_num)] at hp
  omega

/-- An odd local C++ index written through `tdiv`/`toNat`. -/
theorem odd_li_repr (li : Int) (h0 : 0 ≤ li) (hp : (li.tmod 2 == 0) = false) :
    li = 2 * ((li.tdiv 2).toNat : Int) + 1 := by
  rw [Int.tdiv_eq_ediv h0 (by norm_num)]
  simp only [beq_eq_false_iff_ne, ne_eq] at hp
  rw [Int.tmod_eq_emod h0 (by norm_num)] at hp
  omega

/-- Ring slot count of a closed ring. -/
theorem ringPoints_closed (r : List α) (h : ringClosed r = true) :
    ringPoints r = 2 * (r.length : Int) - 2 := by
  unfold ringPoints
  rw [if_pos h]

/-- C10: ring closure is an invariant of both mutators — for every polygon
whose rings are all closed (first position equal to last), any polygon
produced by `updateGeometryPoint` or by `removeGeometryPoint` again has
all rings closed: an update or deletion touching local index 0 of a closed
ring rewrites the duplicated closing position to equal the (new) first
position, and all other touched positions are interior. -/
theorem mutators_preserve_ring_closure (mapPos : α) (index o : Int)
    (ov : List (OverlayPoint α)) (pid : Nat) (rings : List (List α))
    (hc : ∀ r ∈ rings, ringClosed r = true) :
    (∀ rings', (updateGeometryPoint mapPos index (.polygon rings) o ov pid).1 = .polygon rings' →
       ∀ r' ∈ rings', ringClosed r' = true) ∧
    (∀ rings', (removeGeometryPoint index (.polygon rings) o ov).1 = some (.polygon rings') →
       ∀ r' ∈ rings', ringClosed r' = true) := by
  by_cases hge : index < o
  · constructor
    · intro rings' h
      rw [updateGeometryPoint, if_pos hge] at h
      cases h
      exact hc
    · intro rings' h
      rw [removeGeometryPoint, if_pos hge] at h
      simp only [Option.some.injEq, Geometry.polygon.injEq] at h
      subst h
      exact hc
  · rcases hscan : scanRings index rings o with ⟨res, o'⟩
    cases res with
    | none =>
      constructor
      · intro rings' h
        rw [updateGeometryPoint, if_neg hge, hscan] at h
        cases h
        exact hc
      · intro rings' h
        rw [removeGeometryPoint, if_neg hge, hscan] at h
        simp only [Option.some.injEq, Geometry.polygon.injEq] at h
        subst h
        exact hc
    | some jli =>
      obtain ⟨j, li⟩ := jli
      have hb := scanRings_match_bounds index rings o j li o' hscan (by omega)
      have hmem : rings.getD j [] ∈ rings := getD_mem_of_lt rings j [] hb.1
      have hrc : ringClosed (rings.getD j []) = true := hc _ hmem
      have hpts : ringPoints (rings.getD j []) = 2 * ((rings.getD j []).length : Int) - 2 :=
        ringPoints_closed _ hrc
      have hlen2 : 2 ≤ (rings.getD j []).length := by
        have := hb.2.1
        have := hb.2.2
        rw [hpts] at this
        omega
      constructor
      · intro rings' h
        rw [updateGeometryPoint, if_neg hge, hscan] at h
        by_cases hpar : (li.tmod 2 == 0) = true
        · simp only [hpar, if_true, hrc, Bool.true_and] at h
          simp only [Geometry.polygon.injEq] at h
          subst h
          intro r' hr'
          rcases List.mem_or_eq_of_mem_set hr' with hmem' | heq'
          · exact hc _ hmem'
          · subst heq'
            by_cases h0 : li = 0
            · simp only [h0, beq_self_eq_true, if_true]
              apply ringClosed_setBack
              apply List.ne_nil_of_length_pos
              rw [List.length_set]
              omega
            · have hbeq : (li == 0) = false := by simpa using h0
              simp only [hbeq, if_false, Bool.false_eq_true]
              have hrepr := even_li_repr li hb.2.1 hpar
              have hk1 : 0 < (li.tdiv 2).toNat := by omega
              have hk2 : (li.tdiv 2).toNat < (rings.getD j []).length - 1 := by
                have := hb.2.2
                rw [hpts] at this
                omega
              exact ringClosed_set_interior _ hrc _ mapPos hk1 hk2
        · simp only [Bool.not_eq_true] at hpar
          simp only [hpar, Bool.false_eq_true, if_false, Geometry.polygon.injEq] at h
          subst h
          intro r' hr'
          rcases List.mem_or_eq_of_mem_set hr' with hmem' | heq'
          · exact hc _ hmem'
          · subst heq'
            have hrepr := odd_li_repr li hb.2.1 hpar
            have hdn := tdiv_two_nonneg li hb.2.1
            have hj1 : 0 < (li.tdiv 2 + 1).toNat := by omega
            have hj2 : (li.tdiv 2 + 1).toNat ≤ (rings.getD j []).length - 1 := by
              have := hb.2.2
              rw [hpts] at this
              omega
            exact ringClosed_insert_interior _ hrc _ mapPos hj1 hj2
      · intro rings' h
        rw [removeGeometryPoint, if_neg hge, hscan] at h
        by_cases hpar : (li.tmod 2 == 0) = true
        · simp only [hpar, if_true] at h
          by_cases hbig : ringPoints (rings.getD j []) > 6
          · rw [if_pos hbig] at h
            simp only [hrc, Bool.true_and, Option.some.injEq, Geometry.polygon.injEq] at h
            subst h
            intro r' hr'
            rcases List.mem_or_eq_of_mem_set hr' with hmem' | heq'
            · exact hc _ hmem'
            · subst heq'
              have hlen5 : 5 ≤ (rings.getD j []).length := by
                rw [hpts] at hbig
                omega
              by_cases h0 : li = 0
              · subst h0
                simp only [beq_self_eq_true, if_true]
                apply ringClosed_setBack
                apply List.ne_nil_of_length_pos
                rw [show ((0 : Int).tdiv 2).toNat = 0 from rfl]
                rw [List.length_eraseIdx]
                simp only [show (0 : Nat) < (rings.getD j []).length from by omega,
                  if_true]
                omega
              · have hbeq : (li == 0) = false := by simpa using h0
                simp only [hbeq, if_false, Bool.false_eq_true]
                have hrepr := even_li_repr li hb.2.1 hpar
                have hk1 : 0 < (li.tdiv 2).toNat := by omega
                have hk2 : (li.tdiv 2).toNat ≤ (rings.getD j []).length - 2 := by
                  have := hb.2.2
                  rw [hpts] at this
                  omega
                exact ringClosed_erase_interior _ hrc _ hk1 hk2
          · rw [if_neg hbig] at h
            by_cases hn : rings.findIdx (· == rings.getD j []) > 0
            · rw [if_pos hn] at h
              simp only [Option.some.injEq, Geometry.polygon.injEq] at h
              subst h
              intro r' hr'
              exact hc _ ((List.eraseIdx_sublist rings _).subset hr')
            · rw [if_neg hn] at h
              simp at h
        · simp only [Bool.not_eq_true] at hpar
          simp only [hpar, Bool.false_eq_true, if_false, Option.some.injEq,
            Geometry.polygon.injEq] at h
          subst h
          exact hc

/-- Witness for C10 on a concrete closed square ring. -/
theorem mutators_preserve_ring_closure_witness :
    (∀ r ∈ ([[0, 1, 2, 3, 0]] : List (List Int)), ringClosed r = true) ∧
    ((∀ rings', (updateGeometryPoint 9 0 (.polygon [[0, 1, 2, 3, 0]]) 0 [] 0).1 =
        .polygon rings' → ∀ r' ∈ rings', ringClosed r' = true) ∧
     (∀ rings', (removeGeometryPoint 0 (.polygon [[0, 1, 2, 3, 0]]) 0 []).1 =
        some (.polygon rings') → ∀ r' ∈ rings', ringClosed r' = true)) :=
  ⟨by decide, mutators_preserve_ring_closure 9 0 0 [] 0 [[0, 1, 2, 3, 0]] (by decide)⟩

/-- Length of the two-insertion overlay decomposition. -/
theorem splice_decomp_length (l : List β) (n : Nat) (a b c : β) (hn : n < l.length) :
    (l.take n ++ b :: c :: a :: l.drop (n + 1)).length = l.length + 2 := by
  simp [List.length_take, List.length_drop]
  omega

/-- C2: for every line (and every polygon ring) and every in-range odd
local flat index `2k+1`, `updateGeometryPoint` inserts a new vertex with
value `newPos` at vertex position `k+1` of that line/ring, and splices
exactly two new entries into the overlay point sequence at the matching
flat position — one flagged real (before the dragged virtual handle) and
one flagged virtual (after it) — so the overlay sequence's total length
increases by exactly 2. -/
theorem virtual_handle_drag_inserts_vertex :
    (∀ (mapPos : α) (o : Int) (ov : List (OverlayPoint α)) (pid k : Nat) (ps : List α),
      0 ≤ o → k + 1 < ps.length →
      ∀ hov : o.toNat + (2 * k + 1) < ov.length,
      updateGeometryPoint mapPos (o + (2 * (k : Int) + 1)) (.line ps) o ov pid =
        (.line (ps.insertIdx (k + 1) mapPos),
         o + (2 * (ps.length : Int) - 1),
         ov.take (o.toNat + (2 * k + 1)) ++
           ⟨mapPos, false, pid + 1⟩ :: ov.get ⟨o.toNat + (2 * k + 1), hov⟩ ::
           ⟨mapPos, true, pid⟩ :: ov.drop (o.toNat + (2 * k + 1) + 1),
         pid + 2) ∧
      (updateGeometryPoint mapPos (o + (2 * (k : Int) + 1)) (.line ps) o ov pid).2.2.1.length =
        ov.length + 2) ∧
    (∀ (mapPos : α) (o : Int) (ov : List (OverlayPoint α)) (pid k : Nat)
       (pre post : List (List α)) (r : List α),
      0 ≤ o → (2 * (k : Int) + 1) < ringPoints r →
      ∀ hov : (o + (pre.map ringPoints).sum).toNat + (2 * k + 1) < ov.length,
      updateGeometryPoint mapPos (o + (pre.map ringPoints).sum + (2 * (k : Int) + 1))
          (.polygon (pre ++ r :: post)) o ov pid =
        (.polygon (pre ++ r.insertIdx (k + 1) mapPos :: post),
         o + (pre.map ringPoints).sum + ringPoints r,
         ov.take ((o + (pre.map ringPoints).sum).toNat + (2 * k + 1)) ++
           ⟨mapPos, false, pid + 1⟩ ::
           ov.get ⟨(o + (pre.map ringPoints).sum).toNat + (2 * k + 1), hov⟩ ::
           ⟨mapPos, true, pid⟩ ::
           ov.drop ((o + (pre.map ringPoints).sum).toNat + (2 * k + 1) + 1),
         pid + 2) ∧
      (updateGeometryPoint mapPos (o + (pre.map ringPoints).sum + (2 * (k : Int) + 1))
          (.polygon (pre ++ r :: post)) o ov pid).2.2.1.length = ov.length + 2) := by
  constructor
  · intro mapPos o ov pid k ps ho hk hov
    have hne : ¬ (o + (2 * (k : Int) + 1) < o) := by omega
    have hlt : (o + (2 * (k : Int) + 1)) - o < 2 * (ps.length : Int) - 1 := by
      omega
    have hli : (o + (2 * (k : Int) + 1)) - o = 2 * (k : Int) + 1 := by ring
    have heval : updateGeometryPoint mapPos (o + (2 * (k : Int) + 1)) (.line ps) o ov pid =
        (.line (ps.insertIdx (k + 1) mapPos),
         o + (2 * (ps.length : Int) - 1),
         (ov.insertIdx (o.toNat + (2 * k + 1) + 1) ⟨mapPos, true, pid⟩).insertIdx
           (o.toNat + (2 * k + 1)) ⟨mapPos, false, pid + 1⟩,
         pid + 2) := by
      rw [updateGeometryPoint, if_neg hne]
      simp only [hli, hlt, if_true, odd_tmod_two_beq, Bool.false_eq_true, if_false,
        odd_tdiv_two]
      rw [show ((k : Int) + 1).toNat = k + 1 from by omega]
      rw [show (o + (2 * (k : Int) + 1) + 1).toNat = o.toNat + (2 * k + 1) + 1 from by omega]
      rw [show (o + (2 * (k : Int) + 1)).toNat = o.toNat + (2 * k + 1) from by omega]
      rw [if_pos (show 2 * (k : Int) + 1 < 2 * (ps.length : Int) - 1 from by omega)]
    refine ⟨?_, ?_⟩
    · rw [heval, insertIdx2_decomp ov (o.toNat + (2 * k + 1)) _ _ hov]
    · rw [heval]
      exact insertIdx2_length ov (o.toNat + (2 * k + 1)) _ _ hov
  · intro mapPos o ov pid k pre post r ho hk hov
    have hpre := sum_ringPoints_nonneg pre
    have hne : ¬ (o + (pre.map ringPoints).sum + (2 * (k : Int) + 1) < o) := by omega
    have hscan := scanRings_append (o + (pre.map ringPoints).sum + (2 * (k : Int) + 1))
      pre r post o (by omega) (by omega)
    have hli : (o + (pre.map ringPoints).sum + (2 * (k : Int) + 1)) -
        (o + (pre.map ringPoints).sum) = 2 * (k : Int) + 1 := by ring
    have heval : updateGeometryPoint mapPos
        (o + (pre.map ringPoints).sum + (2 * (k : Int) + 1))
        (.polygon (pre ++ r :: post)) o ov pid =
        (.polygon (pre ++ r.insertIdx (k + 1) mapPos :: post),
         o + (pre.map ringPoints).sum + ringPoints r,
         (ov.insertIdx ((o + (pre.map ringPoints).sum).toNat + (2 * k + 1) + 1)
            ⟨mapPos, true, pid⟩).insertIdx
           ((o + (pre.map ringPoints).sum).toNat + (2 * k + 1)) ⟨mapPos, false, pid + 1⟩,
         pid + 2) := by
      rw [updateGeometryPoint, if_neg hne, hscan]
      simp only [hli, odd_tmod_two_beq, Bool.false_eq_true, if_false, odd_tdiv_two,
        getD_append_length]
      rw [set_append_length]
      rw [show ((k : Int) + 1).toNat = k + 1 from by omega]
      rw [show (o + (pre.map ringPoints).sum + (2 * (k : Int) + 1) + 1).toNat =
        (o + (pre.map ringPoints).sum).toNat + (2 * k + 1) + 1 from by omega]
      rw [show (o + (pre.map ringPoints).sum + (2 * (k : Int) + 1)).toNat =
        (o + (pre.map ringPoints).sum).toNat + (2 * k + 1) from by omega]
    refine ⟨?_, ?_⟩
    · rw [heval,
        insertIdx2_decomp ov ((o + (pre.map ringPoints).sum).toNat + (2 * k + 1)) _ _ hov]
    · rw [heval]
      exact insertIdx2_length ov ((o + (pre.map ringPoints).sum).toNat + (2 * k + 1)) _ _ hov

/-- Overlay points of the three-vertex line `[10, 20, 30]` under `mmid`. -/
def ovLine3 : List (OverlayPoint Int) :=
  [⟨10, false, 0⟩, ⟨1020, true, 1⟩, ⟨20, false, 2⟩, ⟨2030, true, 3⟩, ⟨30, false, 4⟩]

/-- Witness for C2: dragging the first virtual handle of a 3-vertex line. -/
theorem virtual_handle_drag_inserts_vertex_witness :
    (0 : Int) ≤ 0 ∧ 0 + 1 < ([10, 20, 30] : List Int).length ∧
    (0 : Int).toNat + (2 * 0 + 1) < ovLine3.length ∧
    (updateGeometryPoint 99 (0 + (2 * ((0 : Nat) : Int) + 1)) (.line [10, 20, 30])
      0 ovLine3 50).2.2.1.length = ovLine3.length + 2 :=
  ⟨le_refl 0, by decide, by decide,
    (virtual_handle_drag_inserts_vertex.1 99 0 ovLine3 50 0 [10, 20, 30]
      (le_refl 0) (by decide) (by decide)).2⟩

/-- Evaluation of `removeGeometryPoint` on a line at an in-range even
local index `2k`. -/
theorem removeGeometryPoint_line_eval (o : Int) (ov : List (OverlayPoint α))
    (k : Nat) (ps : List α) (ho : 0 ≤ o) (hk : k < ps.length) :
    removeGeometryPoint (o + 2 * (k : Int)) (.line ps) o ov =
      (if 2 < ps.length then
         (some (.line (ps.eraseIdx k)), o + (2 * (ps.length : Int) - 1),
          (ov.eraseIdx (o.toNat + 2 * k)).eraseIdx
            (if 0 < k then o.toNat + 2 * k - 1 else o.toNat + 2 * k))
       else (none, o + (2 * (ps.length : Int) - 1), ov)) := by
  have hne : ¬ (o + 2 * (k : Int) < o) := by omega
  have hli : (o + 2 * (k : Int)) - o = 2 * (k : Int) := by ring
  rw [removeGeometryPoint, if_neg hne]
  simp only [hli, even_tmod_two_beq, if_true, even_tdiv_two]
  rw [if_pos (show 2 * (k : Int) < 2 * (ps.length : Int) - 1 from by
    have : (k : Int) < (ps.length : Int) := by exact_mod_cast hk
    omega)]
  rw [show (o + 2 * (k : Int)).toNat = o.toNat + 2 * k from by omega]
  rw [show ((k : Int)).toNat = k from by omega]
  by_cases hk0 : 0 < k
  · rw [if_pos (show (0 : Int) < 2 * (k : Int) from by omega), if_pos hk0]
    rw [show (o + 2 * (k : Int) - 1).toNat = o.toNat + 2 * k - 1 from by omega]
  · rw [if_neg (show ¬ ((0 : Int) < 2 * (k : Int)) from by omega), if_neg hk0]
    rw [show (o + 2 * (k : Int)).toNat = o.toNat + 2 * k from by omega]

/-- C3: for every line, `removeGeometryPoint` at an in-range even local
index `2k` behaves as follows.  If the line has more than 2 vertices, the
targeted vertex is removed together with exactly two overlay entries: the
vertex's own entry and the adjacent midpoint closer to index 0, except
when the removed vertex is the first vertex, in which case the following
midpoint is removed instead; the result is a line with one fewer vertex.
If the line has exactly 2 vertices the result is null.  In particular a
3-vertex line always yields a 2-vertex line, never null. -/
theorem line_vertex_removal_semantics :
    ∀ (o : Int) (ov : List (OverlayPoint α)) (k : Nat) (ps : List α),
      0 ≤ o → k < ps.length → o.toNat + (2 * ps.length - 1) ≤ ov.length →
      ((2 < ps.length ∧ k = 0 →
         removeGeometryPoint (o + 2 * (k : Int)) (.line ps) o ov =
           (some (.line (ps.eraseIdx 0)), o + (2 * (ps.length : Int) - 1),
            ov.take o.toNat ++ ov.drop (o.toNat + 2))) ∧
       (2 < ps.length ∧ 0 < k →
         removeGeometryPoint (o + 2 * (k : Int)) (.line ps) o ov =
           (some (.line (ps.eraseIdx k)), o + (2 * (ps.length : Int) - 1),
            ov.take (o.toNat + 2 * k - 1) ++ ov.drop (o.toNat + 2 * k + 1))) ∧
       (2 < ps.length →
         (removeGeometryPoint (o + 2 * (k : Int)) (.line ps) o ov).2.2.length =
           ov.length - 2 ∧ (ps.eraseIdx k).length = ps.length - 1) ∧
       (ps.length = 2 →
         (removeGeometryPoint (o + 2 * (k : Int)) (.line ps) o ov).1 = none) ∧
       (ps.length = 3 →
         ∃ qs, (removeGeometryPoint (o + 2 * (k : Int)) (.line ps) o ov).1 =
           some (.line qs) ∧ qs.length = 2)) := by
  intro o ov k ps ho hk hov
  have heval := removeGeometryPoint_line_eval o ov k ps ho hk
  refine ⟨?_, ?_, ?_, ?_, ?_⟩
  · rintro ⟨hL, rfl⟩
    rw [heval, if_pos hL]
    rw [if_neg (show ¬ (0 < 0) from by omega)]
    simp only [Nat.mul_zero, Nat.add_zero]
    rw [eraseIdx2_self ov o.toNat (by omega)]
  · rintro ⟨hL, hk0⟩
    rw [heval, if_pos hL, if_pos hk0]
    have h2 := eraseIdx2_prev ov (o.toNat + 2 * k - 1) (by omega)
    rw [show o.toNat + 2 * k - 1 + 1 = o.toNat + 2 * k from by omega] at h2
    rw [show o.toNat + 2 * k - 1 + 2 = o.toNat + 2 * k + 1 from by omega] at h2
    rw [h2]
  · intro hL
    constructor
    · rw [heval, if_pos hL]
      by_cases hk0 : 0 < k
      · rw [if_pos hk0]
        have h2 := eraseIdx2_prev ov (o.toNat + 2 * k - 1) (by omega)
        rw [show o.toNat + 2 * k - 1 + 1 = o.toNat + 2 * k from by omega] at h2
        rw [show o.toNat + 2 * k - 1 + 2 = o.toNat + 2 * k + 1 from by omega] at h2
        rw [h2]
        simp [List.length_take, List.length_drop]
        omega
      · rw [if_neg hk0]
        have hk00 : k = 0 := by omega
        subst hk00
        simp only [Nat.mul_zero, Nat.add_zero]
        rw [eraseIdx2_self ov o.toNat (by omega)]
        simp [List.length_take, List.length_drop]
        omega
    · rw [List.length_eraseIdx]
      simp [hk]
  · intro hL
    rw [heval, if_neg (by omega)]
  · intro hL
    rw [heval, if_pos (by omega)]
    exact ⟨ps.eraseIdx k, rfl, by
      rw [List.length_eraseIdx]
      simp only [hk, if_true]
      omega⟩

/-- Witness for C3: deleting the middle vertex of a 3-vertex line. -/
theorem line_vertex_removal_semantics_witness :
    (0 : Int) ≤ 0 ∧ (1 : Nat) < ([10, 20, 30] : List Int).length ∧
    (0 : Int).toNat + (2 * ([10, 20, 30] : List Int).length - 1) ≤ ovLine3.length ∧
    (∃ qs, (removeGeometryPoint (0 + 2 * ((1 : Nat) : Int)) (.line [10, 20, 30])
      0 ovLine3).1 = some (.line qs) ∧ qs.length = 2) :=
  ⟨le_refl 0, by decide, by decide,
    (line_vertex_removal_semantics 0 ovLine3 1 [10, 20, 30] (le_refl 0) (by decide)
      (by decide)).2.2.2.2 rfl⟩

/-- C4 counterexample: a polygon with two value-identical small open rings
`[0,1,2]`.  Deleting a vertex of ring index 1 (a non-zero ring index of a
multi-ring polygon with ring point-range 6 ≤ 6) nulls the whole polygon
instead of removing only that ring, because the source locates the ring to
drop with `std::find` by value, which returns index 0. -/
theorem remove_duplicate_ring_nulls_polygon_counterexample :
    ringPoints ([0, 1, 2] : List Int) ≤ 6 ∧
    scanRings (α := Int) 6 [[0, 1, 2], [0, 1, 2]] 0 = (some (1, 0), 12) ∧
    (removeGeometryPoint (α := Int) 6 (.polygon [[0, 1, 2], [0, 1, 2]]) 0 []).1 =
      none :=
  ⟨by decide, rfl, rfl⟩

/-- C4 (amended): for every polygon and in-range even local index `2k`
within some ring, `removeGeometryPoint` removes the targeted vertex
(mirroring the closing duplicate when index 0 of a closed ring is
targeted) when that ring's local point-range exceeds 6; otherwise a ring
is dropped, and the ring index used is that of the *first ring value-equal
to the targeted ring*: the whole polygon degenerates to null exactly when
that first value-equal ring is at ring index 0, and only when the targeted
ring differs in value from every earlier ring does the deletion remove
exactly that ring with the polygon surviving. -/
theorem polygon_ring_removal_semantics :
    ∀ (o : Int) (ov : List (OverlayPoint α)) (k : Nat) (pre post : List (List α))
      (r : List α),
      0 ≤ o → 2 * (k : Int) < ringPoints r →
      ((ringPoints r > 6 →
         (removeGeometryPoint (o + (pre.map ringPoints).sum + 2 * (k : Int))
           (.polygon (pre ++ r :: post)) o ov).1 =
           some (.polygon (pre ++
             (if ringClosed r = true ∧ k = 0 then setBack (r.eraseIdx k)
              else r.eraseIdx k) :: post))) ∧
       (ringPoints r ≤ 6 →
         (removeGeometryPoint (o + (pre.map ringPoints).sum + 2 * (k : Int))
           (.polygon (pre ++ r :: post)) o ov).1 =
           (if (pre ++ r :: post).findIdx (· == r) = 0 then none
            else some (.polygon
              ((pre ++ r :: post).eraseIdx ((pre ++ r :: post).findIdx (· == r))))))) := by
  intro o ov k pre post r ho hk
  have hpre := sum_ringPoints_nonneg pre
  have hne : ¬ (o + (pre.map ringPoints).sum + 2 * (k : Int) < o) := by omega
  have hscan := scanRings_append (o + (pre.map ringPoints).sum + 2 * (k : Int))
    pre r post o (by omega) (by omega)
  have hli : (o + (pre.map ringPoints).sum + 2 * (k : Int)) -
      (o + (pre.map ringPoints).sum) = 2 * (k : Int) := by ring
  have heval0 : removeGeometryPoint (o + (pre.map ringPoints).sum + 2 * (k : Int))
      (.polygon (pre ++ r :: post)) o ov =
      (if ringPoints r > 6 then
         (some (.polygon (pre ++
            (if ringClosed r && (2 * (k : Int) == 0) then setBack (r.eraseIdx k)
             else r.eraseIdx k) :: post)),
          o + (pre.map ringPoints).sum + ringPoints r,
          (ov.eraseIdx ((o + (pre.map ringPoints).sum + 2 * (k : Int) + 1)).toNat).eraseIdx
            ((o + (pre.map ringPoints).sum + 2 * (k : Int))).toNat)
       else
         (if (pre ++ r :: post).findIdx (· == r) > 0 then
            some (.polygon ((pre ++ r :: post).eraseIdx
              ((pre ++ r :: post).findIdx (· == r))))
          else none,
          o + (pre.map ringPoints).sum + ringPoints r, ov)) := by
    rw [removeGeometryPoint, if_neg hne, hscan]
    simp only [hli, even_tmod_two_beq, if_true, even_tdiv_two, getD_append_length]
    rw [show ((k : Int)).toNat = k from by omega]
    rw [set_append_length]
    by_cases hbig : ringPoints r > 6
    · rw [if_pos hbig, if_pos hbig]
    · rw [if_neg hbig, if_neg hbig]
      by_cases hn : (pre ++ r :: post).findIdx (· == r) > 0
      · rw [if_pos hn, if_pos hn]
      · rw [if_neg hn, if_neg hn]
  constructor
  · intro hbig
    rw [heval0, if_pos hbig]
    by_cases hc : ringClosed r = true
    · by_cases hk0 : k = 0
      · subst hk0
        simp [hc]
      · have : ((2 * (k : Int)) == 0) = false := by
          simp only [beq_eq_false_iff_ne, ne_eq]
          omega
        simp [this, hc, hk0]
    · have hcb : ringClosed r = false := by simpa using hc
      simp [hcb, hc]
  · intro hsmall
    rw [heval0, if_neg (by omega)]
    by_cases hn : (pre ++ r :: post).findIdx (· == r) = 0
    · rw [if_neg (by omega), if_pos hn]
    · rw [if_pos (by omega), if_neg hn]

/-- Witness for the amended C4: a big closed outer ring and a distinct
small open ring; deleting from the small ring (first value-equal index 1)
drops only that ring. -/
theorem polygon_ring_removal_semantics_witness :
    (0 : Int) ≤ 0 ∧ 2 * ((0 : Nat) : Int) < ringPoints ([5, 6, 7] : List Int) ∧
    ringPoints ([5, 6, 7] : List Int) ≤ 6 ∧
    (removeGeometryPoint (0 + (([[0, 1, 2, 3, 0]] : List (List Int)).map ringPoints).sum +
        2 * ((0 : Nat) : Int))
      (.polygon ([[0, 1, 2, 3, 0]] ++ [5, 6, 7] :: [])) 0 []).1 =
      (if ([[0, 1, 2, 3, 0]] ++ ([5, 6, 7] : List Int) :: []).findIdx (· == [5, 6, 7]) = 0
       then none
       else some (.polygon (([[0, 1, 2, 3, 0]] ++ ([5, 6, 7] : List Int) :: []).eraseIdx
         (([[0, 1, 2, 3, 0]] ++ ([5, 6, 7] : List Int) :: []).findIdx (· == [5, 6, 7]))))) :=
  ⟨le_refl 0, by decide, by decide,
    (polygon_ring_removal_semantics 0 [] 0 [[0, 1, 2, 3, 0]] [] [5, 6, 7]
      (le_refl 0) (by decide)).2 (by decide)⟩
